import Mathlib

/-!
Verification of the indicator computation engine of the
crypto-technical-analysis repository
(file `.opencode/skills/crypto/scripts/technical_analysis.py`).

The source operates on pandas Series of IEEE-754 doubles.  We embed a
series as a `List FV`, where `FV` carries an exact rational in place of a
double together with the three non-finite float states the pipelines
actually produce: `nan` (pandas missing marker), `pinf` and `ninf`.
Arithmetic on `FV` follows the IEEE rules for these states.  Signed zero
is not modelled: in every pipeline below a negative zero can only arise as
`-0.0` from negating a zero gain/loss, and there it flows into a division
whose outcome (`±inf`, collapsing to the same RSI value of 100, or `nan`)
is unchanged by the sign of the zero, so collapsing `-0.0` into `0` is
observationally faithful.

Candle fields are exact rationals: raw-field parsing (`pd.to_numeric`) is
a textual concern outside the shallow embedding; all claims quantify over
already-numeric normalized series.
-/

/-! ## Kernel-computable rational arithmetic

The field operations of Mathlib's `ℚ` are `@[irreducible]`, so a witness
evaluated by `decide` could never reduce them.  The wrappers below
implement the same operations directly through `mkRat` / `Rat.divInt` /
`Rat.neg` (which do reduce) and are proved equal to the field operations;
every theorem about them can therefore be stated and used in ordinary
`+ - * /` form via the agreement lemmas. -/

/-- Kernel-computable rational addition, equal to `a + b`. -/
def qadd (a b : ℚ) : ℚ := mkRat (a.num * b.den + b.num * a.den) (a.den * b.den)

/-- Kernel-computable rational multiplication, equal to `a * b`. -/
def qmul (a b : ℚ) : ℚ := mkRat (a.num * b.num) (a.den * b.den)

/-- Kernel-computable rational division, equal to `a / b` (0 on a zero
divisor, as in Mathlib). -/
def qdiv (a b : ℚ) : ℚ := Rat.divInt (a.num * b.den) (a.den * b.num)

/-- Kernel-computable rational subtraction, equal to `a - b`. -/
def qsub (a b : ℚ) : ℚ := qadd a (Rat.neg b)

/-- Kernel-computable absolute value, equal to the lattice `abs`. -/
def qabs (a : ℚ) : ℚ := if a < 0 then Rat.neg a else a

/-- Kernel-computable maximum. -/
def qmax (a b : ℚ) : ℚ := if a ≤ b then b else a

/-- Kernel-computable minimum. -/
def qmin (a b : ℚ) : ℚ := if a ≤ b then a else b

theorem rat_neg_eq (a : ℚ) : Rat.neg a = -a := rfl

theorem qadd_eq (a b : ℚ) : qadd a b = a + b := by
  unfold qadd
  rw [Rat.mkRat_eq_div]
  push_cast
  have ha : (a.den : ℚ) ≠ 0 := by exact_mod_cast a.den_nz
  have hb : (b.den : ℚ) ≠ 0 := by exact_mod_cast b.den_nz
  calc (↑a.num * ↑b.den + ↑b.num * ↑a.den) / (↑a.den * ↑b.den)
      = (a.num : ℚ) / a.den + (b.num : ℚ) / b.den := by field_simp
    _ = a + b := by rw [Rat.num_div_den, Rat.num_div_den]

theorem qmul_eq (a b : ℚ) : qmul a b = a * b := by
  unfold qmul
  rw [Rat.mkRat_eq_div]
  push_cast
  have ha : (a.den : ℚ) ≠ 0 := by exact_mod_cast a.den_nz
  have hb : (b.den : ℚ) ≠ 0 := by exact_mod_cast b.den_nz
  calc (↑a.num * ↑b.num) / (↑a.den * ↑b.den)
      = ((a.num : ℚ) / a.den) * ((b.num : ℚ) / b.den) := by field_simp
    _ = a * b := by rw [Rat.num_div_den, Rat.num_div_den]

theorem qdiv_eq (a b : ℚ) : qdiv a b = a / b := by
  unfold qdiv
  rw [Rat.divInt_eq_div]
  push_cast
  have ha : (a.den : ℚ) ≠ 0 := by exact_mod_cast a.den_nz
  have hb : (b.den : ℚ) ≠ 0 := by exact_mod_cast b.den_nz
  by_cases hbz : b = 0
  · subst hbz
    simp
  · have hbn : (b.num : ℚ) ≠ 0 := by
      simpa using (Rat.num_ne_zero).2 hbz
    calc (↑a.num * ↑b.den) / (↑a.den * ↑b.num)
        = ((a.num : ℚ) / a.den) / ((b.num : ℚ) / b.den) := by field_simp
      _ = a / b := by rw [Rat.num_div_den, Rat.num_div_den]

theorem qsub_eq (a b : ℚ) : qsub a b = a - b := by
  unfold qsub
  rw [rat_neg_eq, qadd_eq, sub_eq_add_neg]

theorem qabs_eq (a : ℚ) : qabs a = |a| := by
  unfold qabs
  rw [rat_neg_eq]
  by_cases h : a < 0
  · rw [if_pos h, abs_of_neg h]
  · rw [if_neg h, abs_of_nonneg (not_lt.1 h)]

theorem qmax_eq (a b : ℚ) : qmax a b = max a b := by
  unfold qmax
  rw [max_def]

theorem qmin_eq (a b : ℚ) : qmin a b = min a b := by
  unfold qmin
  rw [min_def]

/-- Model of an IEEE-754 double as used by the pandas pipelines: an exact
rational, or one of the non-finite states `nan` / `+inf` / `-inf`. -/
inductive FV where
  | nan : FV
  | pinf : FV
  | ninf : FV
  | fin : ℚ → FV
deriving DecidableEq, Repr

/-- IEEE negation: `nan` stays `nan`, infinities flip, finite values negate. -/
def FV.neg : FV → FV
  | FV.nan => FV.nan
  | FV.pinf => FV.ninf
  | FV.ninf => FV.pinf
  | FV.fin q => FV.fin (Rat.neg q)

/-- IEEE absolute value. -/
def FV.abs : FV → FV
  | FV.nan => FV.nan
  | FV.pinf => FV.pinf
  | FV.ninf => FV.pinf
  | FV.fin q => FV.fin (qabs q)

/-- IEEE addition: `nan` absorbs, opposite infinities give `nan`. -/
def FV.add : FV → FV → FV
  | FV.nan, _ => FV.nan
  | _, FV.nan => FV.nan
  | FV.pinf, FV.ninf => FV.nan
  | FV.ninf, FV.pinf => FV.nan
  | FV.pinf, _ => FV.pinf
  | _, FV.pinf => FV.pinf
  | FV.ninf, _ => FV.ninf
  | _, FV.ninf => FV.ninf
  | FV.fin a, FV.fin b => FV.fin (qadd a b)

/-- IEEE subtraction, via addition of the negation. -/
def FV.sub (a b : FV) : FV := FV.add a (FV.neg b)

/-- IEEE multiplication: `nan` absorbs, `inf * 0 = nan`, otherwise sign rules. -/
def FV.mul : FV → FV → FV
  | FV.nan, _ => FV.nan
  | _, FV.nan => FV.nan
  | FV.pinf, FV.pinf => FV.pinf
  | FV.pinf, FV.ninf => FV.ninf
  | FV.ninf, FV.pinf => FV.ninf
  | FV.ninf, FV.ninf => FV.pinf
  | FV.pinf, FV.fin b => if b = 0 then FV.nan else if 0 < b then FV.pinf else FV.ninf
  | FV.fin a, FV.pinf => if a = 0 then FV.nan else if 0 < a then FV.pinf else FV.ninf
  | FV.ninf, FV.fin b => if b = 0 then FV.nan else if 0 < b then FV.ninf else FV.pinf
  | FV.fin a, FV.ninf => if a = 0 then FV.nan else if 0 < a then FV.ninf else FV.pinf
  | FV.fin a, FV.fin b => FV.fin (qmul a b)

/-- IEEE division (unsigned zero): `nan` absorbs, `inf/inf = nan`,
`x/0` is `nan` for `x = 0` and a signed infinity otherwise,
`fin/inf = 0`. -/
def FV.div : FV → FV → FV
  | FV.nan, _ => FV.nan
  | _, FV.nan => FV.nan
  | FV.pinf, FV.pinf => FV.nan
  | FV.pinf, FV.ninf => FV.nan
  | FV.ninf, FV.pinf => FV.nan
  | FV.ninf, FV.ninf => FV.nan
  | FV.pinf, FV.fin b => if b < 0 then FV.ninf else FV.pinf
  | FV.ninf, FV.fin b => if b < 0 then FV.pinf else FV.ninf
  | FV.fin _, FV.pinf => FV.fin 0
  | FV.fin _, FV.ninf => FV.fin 0
  | FV.fin a, FV.fin b =>
      if b = 0 then (if a = 0 then FV.nan else if 0 < a then FV.pinf else FV.ninf)
      else FV.fin (qdiv a b)

/-- IEEE strict comparison as a Bool: any comparison involving `nan` is false. -/
def FV.lt : FV → FV → Bool
  | FV.nan, _ => false
  | _, FV.nan => false
  | FV.pinf, _ => false
  | FV.ninf, FV.ninf => false
  | FV.ninf, _ => true
  | FV.fin _, FV.ninf => false
  | FV.fin a, FV.fin b => decide (a < b)
  | FV.fin _, FV.pinf => true

/-- IEEE non-strict comparison as a Bool: false when either side is `nan`. -/
def FV.le : FV → FV → Bool
  | FV.nan, _ => false
  | _, FV.nan => false
  | FV.ninf, _ => true
  | _, FV.pinf => true
  | FV.pinf, _ => false
  | FV.fin _, FV.ninf => false
  | FV.fin a, FV.fin b => decide (a ≤ b)

/-- Test for the pandas missing marker. -/
def FV.isNan : FV → Bool
  | FV.nan => true
  | _ => false

/-- Test for a finite value, i.e. a defined (non-missing, non-overflowed)
entry of a Derived Series. -/
def FV.isFin : FV → Bool
  | FV.fin _ => true
  | _ => false

/-- Pairwise maximum skipping `nan`, as used by `DataFrame.max(axis=1)`
(skipna defaults to True): `nan` acts as an identity. -/
def FV.fmax2 : FV → FV → FV
  | FV.nan, b => b
  | a, FV.nan => a
  | a, b => if FV.le a b then b else a

@[simp] theorem FV.add_nan (x : FV) : FV.add x FV.nan = FV.nan := by cases x <;> rfl
@[simp] theorem FV.nan_add (x : FV) : FV.add FV.nan x = FV.nan := by cases x <;> rfl
@[simp] theorem FV.neg_nan : FV.neg FV.nan = FV.nan := rfl
@[simp] theorem FV.sub_nan (x : FV) : FV.sub x FV.nan = FV.nan := by
  cases x <;> rfl
@[simp] theorem FV.nan_sub (x : FV) : FV.sub FV.nan x = FV.nan := by
  cases x <;> rfl
@[simp] theorem FV.mul_nan (x : FV) : FV.mul x FV.nan = FV.nan := by cases x <;> rfl
@[simp] theorem FV.nan_mul (x : FV) : FV.mul FV.nan x = FV.nan := by cases x <;> rfl
@[simp] theorem FV.div_nan (x : FV) : FV.div x FV.nan = FV.nan := by cases x <;> rfl
@[simp] theorem FV.nan_div (x : FV) : FV.div FV.nan x = FV.nan := by cases x <;> rfl
@[simp] theorem FV.abs_nan : FV.abs FV.nan = FV.nan := rfl
@[simp] theorem FV.lt_nan (x : FV) : FV.lt x FV.nan = false := by cases x <;> rfl
@[simp] theorem FV.nan_lt (x : FV) : FV.lt FV.nan x = false := by cases x <;> rfl
@[simp] theorem FV.le_nan (x : FV) : FV.le x FV.nan = false := by cases x <;> rfl
@[simp] theorem FV.nan_le (x : FV) : FV.le FV.nan x = false := by cases x <;> rfl
@[simp] theorem FV.isNan_nan : FV.isNan FV.nan = true := rfl
@[simp] theorem FV.isFin_nan : FV.isFin FV.nan = false := rfl
@[simp] theorem FV.isFin_fin (q : ℚ) : FV.isFin (FV.fin q) = true := rfl

theorem FV.add_fin (a b : ℚ) : FV.add (FV.fin a) (FV.fin b) = FV.fin (a + b) := by
  show FV.fin (qadd a b) = FV.fin (a + b)
  rw [qadd_eq]
theorem FV.sub_fin (a b : ℚ) : FV.sub (FV.fin a) (FV.fin b) = FV.fin (a - b) := by
  show FV.fin (qadd a (Rat.neg b)) = FV.fin (a - b)
  rw [rat_neg_eq, qadd_eq, ← sub_eq_add_neg]
theorem FV.mul_fin (a b : ℚ) : FV.mul (FV.fin a) (FV.fin b) = FV.fin (a * b) := by
  show FV.fin (qmul a b) = FV.fin (a * b)
  rw [qmul_eq]
theorem FV.div_fin (a b : ℚ) : FV.div (FV.fin a) (FV.fin b) =
    (if b = 0 then (if a = 0 then FV.nan else if 0 < a then FV.pinf else FV.ninf)
     else FV.fin (a / b)) := by
  show (if b = 0 then (if a = 0 then FV.nan else if 0 < a then FV.pinf else FV.ninf)
     else FV.fin (qdiv a b)) = _
  rw [qdiv_eq]

/-! ## Series-level operations (the pandas layer)

A pandas Series of length n is a `List FV` of length n; position i is
list index i (the Series Normalizer re-indexes positions 0..n-1). -/

/-- Series.diff(): element-wise difference with the previous element; the
first element has no predecessor and is `nan`. -/
def fdiff : List FV → List FV
  | [] => []
  | x :: xs => FV.nan :: List.zipWith FV.sub xs (x :: xs)

/-- Series.shift(): shift forward by one, introducing a leading `nan`. -/
def fshift : List FV → List FV
  | [] => []
  | x :: xs => FV.nan :: (x :: xs).dropLast

/-- Series.shift(n): shift forward by n, introducing n leading `nan`s. -/
def fshiftN (n : ℕ) (l : List FV) : List FV :=
  List.replicate (min n l.length) FV.nan ++ l.take (l.length - n)

/-- The trailing window of size p ending at position i. -/
def window (p i : ℕ) (l : List FV) : List FV :=
  (l.take (i + 1)).drop (i + 1 - p)

/-- Generic rolling computation with `min_periods` equal to the window
size (the pandas default): position i is `nan` until i+1 ≥ p, then the
window statistic of the trailing p elements. -/
def rollingApply (f : List FV → FV) (p : ℕ) (l : List FV) : List FV :=
  (List.range l.length).map fun i =>
    if i + 1 < p then FV.nan else f (window p i l)

/-- Mean of a full window: `nan` when any observation in the window is
missing (min_periods equals the window size), else the sum divided by p. -/
def windowMean (p : ℕ) (w : List FV) : FV :=
  if w.any FV.isNan then FV.nan
  else FV.div (w.foldl FV.add (FV.fin 0)) (FV.fin p)

/-- Series.rolling(window=p).mean(). -/
def rollingMean (p : ℕ) (l : List FV) : List FV :=
  rollingApply (windowMean p) p l

/-- Minimum of a full window, `nan` if any observation is missing. -/
def windowMin (p : ℕ) (w : List FV) : FV :=
  if w.any FV.isNan then FV.nan
  else match w with
       | [] => FV.nan
       | x :: xs => xs.foldl (fun a b => if FV.le a b then a else b) x

/-- Maximum of a full window, `nan` if any observation is missing. -/
def windowMax (p : ℕ) (w : List FV) : FV :=
  if w.any FV.isNan then FV.nan
  else match w with
       | [] => FV.nan
       | x :: xs => xs.foldl FV.fmax2 x

/-- Series.rolling(window=p, min_periods=p).min(). -/
def rollingMin (p : ℕ) (l : List FV) : List FV :=
  rollingApply (windowMin p) p l

/-- Series.rolling(window=p, min_periods=p).max(). -/
def rollingMax (p : ℕ) (l : List FV) : List FV :=
  rollingApply (windowMax p) p l

/-- Extract the rationals of an all-finite window; `none` if any entry is
not finite. -/
def allFin : List FV → Option (List ℚ)
  | [] => some []
  | FV.fin q :: xs => (allFin xs).map (fun qs => q :: qs)
  | _ => none

/-- Sample variance (ddof = 1) of a full window, the square of the value
`Series.rolling(window=p).std()` produces: `nan` when an observation is
missing or when p ≤ 1 (division by ddof-corrected count zero).  Windows
with infinite observations do not occur in any pipeline below (prices are
finite), so they also map to `nan`. -/
def windowVar (p : ℕ) (w : List FV) : FV :=
  if w.any FV.isNan then FV.nan
  else if p ≤ 1 then FV.nan
  else match allFin w with
       | some qs =>
           FV.fin (qdiv ((qs.map (fun x =>
               qmul (qsub x (qdiv (qs.foldl qadd 0) p)) (qsub x (qdiv (qs.foldl qadd 0) p)))).foldl qadd 0)
             (qsub p 1))
       | none => FV.nan

/-- Series.rolling(window=p).var(), the square of rolling std. -/
def rollingVar (p : ℕ) (l : List FV) : List FV :=
  rollingApply (windowVar p) p l

/-- Recursion of Series.ewm(adjust=False).mean(): the state is the last
computed smoothed value (`none` before the first valid observation).
Output is `nan` until the first valid observation seeds the recursion;
a missing observation leaves the state unchanged and repeats the previous
output.  (Interior missing observations never occur with a finite price
series, the only inputs the theorems below evaluate, so the
`ignore_na=False` re-weighting after an interior gap is not modelled.) -/
def ewmGo (a : ℚ) (st : Option ℚ) : List FV → List FV
  | [] => []
  | x :: rest =>
      match st, x with
      | none, FV.fin v => FV.fin v :: ewmGo a (some v) rest
      | none, _ => FV.nan :: ewmGo a none rest
      | some y, FV.fin v =>
          FV.fin (qadd (qmul (qsub 1 a) y) (qmul a v)) ::
            ewmGo a (some (qadd (qmul (qsub 1 a) y) (qmul a v))) rest
      | some y, _ => FV.fin y :: ewmGo a (some y) rest

/-- Series.ewm(adjust=False).mean() with smoothing factor a. -/
def ewmMean (a : ℚ) (l : List FV) : List FV := ewmGo a none l

/-- Three-list zipWith, for `pd.concat([...], axis=1).max(axis=1)`. -/
def zipWith3 (f : FV → FV → FV → FV) : List FV → List FV → List FV → List FV
  | a :: as_, b :: bs, c :: cs => f a b c :: zipWith3 f as_ bs cs
  | _, _, _ => []

/-- Row-wise maximum of three columns with skipna (the pandas default):
missing entries are ignored; all-missing rows stay missing. -/
def nanmax3 (a b c : FV) : FV := FV.fmax2 (FV.fmax2 a b) c

/-! ## Data model: candles and the Series Normalizer -/

/-- One OHLCV candle as produced by the Series Normalizer: a timestamp
(one consistent time representation, modelled as an integer) and numeric
price/volume fields.  Column names follow the source DataFrame
(`datetime`, `open`, `high`, `low`, `close`, `vol`); `open` is a Lean
keyword, hence `open_`. -/
structure Candle where
  datetime : ℤ
  open_ : ℚ
  high : ℚ
  low : ℚ
  close : ℚ
  vol : ℚ
deriving DecidableEq, Repr

/-- Timestamp order used by the normalizer's sort. -/
def tsLE (a b : Candle) : Prop := a.datetime ≤ b.datetime

instance : DecidableRel tsLE := fun a b => inferInstanceAs (Decidable (a.datetime ≤ b.datetime))

instance : IsTotal Candle tsLE := ⟨fun a b => le_total a.datetime b.datetime⟩

instance : IsTrans Candle tsLE := ⟨fun _ _ _ h h2 => le_trans h h2⟩

/-- TechnicalAnalysis._process_dataframe: on a non-empty frame, sort by
`datetime` ascending and re-index positions 0..n-1 (re-indexing is
implicit in the list representation).  The source's sort kind is
unspecified (pandas `sort_values` defaults to an unstable quicksort); we
fix a concrete sort producing an ascending-by-timestamp permutation.
Numeric coercion of the columns (`pd.to_numeric(errors="coerce")`) is a
textual-parsing concern outside this embedding, whose candles are already
numeric. -/
def process_dataframe (l : List Candle) : List Candle :=
  if l.isEmpty then l else List.insertionSort tsLE l

/-- The close column as a float Series. -/
def closesF (s : List Candle) : List FV := s.map (fun c => FV.fin c.close)

/-- The high column as a float Series. -/
def highsF (s : List Candle) : List FV := s.map (fun c => FV.fin c.high)

/-- The low column as a float Series. -/
def lowsF (s : List Candle) : List FV := s.map (fun c => FV.fin c.low)

/-- The vol column as a float Series. -/
def volsF (s : List Candle) : List FV := s.map (fun c => FV.fin c.vol)

/-! ## Indicator Library -/

/-- TechnicalAnalysis.calculate_ma: `close.rolling(window=period).mean()`. -/
def calculate_ma (period : ℕ) (s : List Candle) : List FV :=
  rollingMean period (closesF s)

/-- TechnicalAnalysis.calculate_ema:
`close.ewm(span=period, adjust=False).mean()`, smoothing factor
2/(span+1). -/
def calculate_ema (period : ℕ) (s : List Candle) : List FV :=
  ewmMean (qdiv 2 (qadd (period : ℚ) 1)) (closesF s)

/-- DMI step `plus_dm = high.diff()`. -/
def dmi_plus_dm_raw (s : List Candle) : List FV := fdiff (highsF s)

/-- DMI step `minus_dm = -low.diff()`. -/
def dmi_minus_dm_raw (s : List Candle) : List FV := (fdiff (lowsF s)).map FV.neg

/-- The four in-place masked assignments of calculate_dmi, in source
order:
`plus_dm[plus_dm < 0] = 0`; `minus_dm[minus_dm < 0] = 0`;
`plus_dm[plus_dm <= minus_dm] = 0`; `minus_dm[minus_dm <= plus_dm] = 0`.
The last line reads the *already updated* plus_dm — the update is
sequential, not simultaneous.  Masked assignment leaves `nan` entries
untouched because an IEEE comparison against `nan` is false. -/
def dmi_plus_dm (s : List Candle) : List FV :=
  List.zipWith (fun p m => if FV.le p m then FV.fin 0 else p)
    ((dmi_plus_dm_raw s).map (fun x => if FV.lt x (FV.fin 0) then FV.fin 0 else x))
    ((dmi_minus_dm_raw s).map (fun x => if FV.lt x (FV.fin 0) then FV.fin 0 else x))

/-- The -DM line after all four masked assignments: its comparison reads
the final `dmi_plus_dm`, not the pre-tie-break +DM. -/
def dmi_minus_dm (s : List Candle) : List FV :=
  List.zipWith (fun m p => if FV.le m p then FV.fin 0 else m)
    ((dmi_minus_dm_raw s).map (fun x => if FV.lt x (FV.fin 0) then FV.fin 0 else x))
    (dmi_plus_dm s)

/-- The pair (+DM, -DM) used by the rolling directional indicators. -/
def dmi_dm (s : List Candle) : List FV × List FV :=
  (dmi_plus_dm s, dmi_minus_dm s)

/-- True range of calculate_dmi / calculate_atr:
`max(high - low, |high - prev close|, |low - prev close|)` row-wise with
skipna, so position 0 (no previous close) falls back to high - low. -/
def true_range (s : List Candle) : List FV :=
  let tr1 := List.zipWith FV.sub (highsF s) (lowsF s)
  let tr2 := (List.zipWith FV.sub (highsF s) (fshift (closesF s))).map FV.abs
  let tr3 := (List.zipWith FV.sub (lowsF s) (fshift (closesF s))).map FV.abs
  zipWith3 nanmax3 tr1 tr2 tr3

/-- The +DI series of calculate_dmi:
`100 * plus_dm.rolling(window=period).mean() / atr`. -/
def dmi_plus_di (period : ℕ) (s : List Candle) : List FV :=
  let atr := rollingMean period (true_range s)
  List.zipWith FV.div
    ((rollingMean period (dmi_dm s).1).map (fun x => FV.mul (FV.fin 100) x)) atr

/-- The -DI series of calculate_dmi. -/
def dmi_minus_di (period : ℕ) (s : List Candle) : List FV :=
  let atr := rollingMean period (true_range s)
  List.zipWith FV.div
    ((rollingMean period (dmi_dm s).2).map (fun x => FV.mul (FV.fin 100) x)) atr

/-- The ADX series of calculate_dmi:
`dx = 100 * abs(plus_di - minus_di) / (plus_di + minus_di)` smoothed by a
rolling mean. -/
def dmi_adx (period : ℕ) (s : List Candle) : List FV :=
  let pdi := dmi_plus_di period s
  let mdi := dmi_minus_di period s
  let dx := List.zipWith FV.div
    ((List.zipWith FV.sub pdi mdi).map (fun x => FV.mul (FV.fin 100) (FV.abs x)))
    (List.zipWith FV.add pdi mdi)
  rollingMean period dx

/-- TechnicalAnalysis.calculate_dmi: returns (+DI, -DI, ADX). -/
def calculate_dmi (period : ℕ) (s : List Candle) : List FV × List FV × List FV :=
  (dmi_plus_di period s, dmi_minus_di period s, dmi_adx period s)

/-- RSI step `delta = close.diff()`. -/
def rsi_delta (s : List Candle) : List FV := fdiff (closesF s)

/-- RSI step `gain = delta.where(delta > 0, 0)`: keep where the condition
holds, else 0.  The condition is false on the leading `nan`, which
therefore becomes 0 (not `nan`). -/
def rsi_gain (s : List Candle) : List FV :=
  (rsi_delta s).map (fun d => if FV.lt (FV.fin 0) d then d else FV.fin 0)

/-- RSI step `loss = -delta.where(delta < 0, 0)`. -/
def rsi_loss (s : List Candle) : List FV :=
  (rsi_delta s).map (fun d => FV.neg (if FV.lt d (FV.fin 0) then d else FV.fin 0))

/-- RSI step `avg_gain = gain.rolling(window=period).mean()`. -/
def rsi_avg_gain (period : ℕ) (s : List Candle) : List FV :=
  rollingMean period (rsi_gain s)

/-- RSI step `avg_loss = loss.rolling(window=period).mean()`. -/
def rsi_avg_loss (period : ℕ) (s : List Candle) : List FV :=
  rollingMean period (rsi_loss s)

/-- TechnicalAnalysis.calculate_rsi:
`rs = avg_gain / avg_loss; rsi = 100 - (100 / (1 + rs))`. -/
def calculate_rsi (period : ℕ) (s : List Candle) : List FV :=
  (List.zipWith FV.div (rsi_avg_gain period s) (rsi_avg_loss period s)).map
    (fun rs => FV.sub (FV.fin 100) (FV.div (FV.fin 100) (FV.add (FV.fin 1) rs)))

/-- MACD step `dif = exp1 - exp2` (difference of the fast and slow EMAs). -/
def macd_dif (fast slow : ℕ) (s : List Candle) : List FV :=
  List.zipWith FV.sub
    (ewmMean (qdiv 2 (qadd (fast : ℚ) 1)) (closesF s))
    (ewmMean (qdiv 2 (qadd (slow : ℚ) 1)) (closesF s))

/-- MACD step `dea = dif.ewm(span=signal, adjust=False).mean()`. -/
def macd_dea (fast slow signal : ℕ) (s : List Candle) : List FV :=
  ewmMean (qdiv 2 (qadd (signal : ℚ) 1)) (macd_dif fast slow s)

/-- MACD step `histogram = (dif - dea) * 2`. -/
def macd_hist (fast slow signal : ℕ) (s : List Candle) : List FV :=
  (List.zipWith FV.sub (macd_dif fast slow s) (macd_dea fast slow signal s)).map
    (fun x => FV.mul x (FV.fin 2))

/-- TechnicalAnalysis.calculate_macd: returns (DIF, DEA, histogram). -/
def calculate_macd (fast slow signal : ℕ) (s : List Candle) :
    List FV × List FV × List FV :=
  (macd_dif fast slow s, macd_dea fast slow signal s, macd_hist fast slow signal s)

/-- KDJ step
`rsv = (close - lowest-low(n)) / (highest-high(n) - lowest-low(n)) * 100`. -/
def kdj_rsv (n : ℕ) (s : List Candle) : List FV :=
  (List.zipWith FV.div
    (List.zipWith FV.sub (closesF s) (rollingMin n (lowsF s)))
    (List.zipWith FV.sub (rollingMax n (highsF s)) (rollingMin n (lowsF s)))).map
    (fun x => FV.mul x (FV.fin 100))

/-- KDJ step `k = rsv.ewm(com=m1-1, adjust=False).mean()`; `ewm(com=m-1)`
has smoothing factor 1/(1+(m-1)) = 1/m. -/
def kdj_k (n m1 : ℕ) (s : List Candle) : List FV :=
  ewmMean (qdiv 1 (m1 : ℚ)) (kdj_rsv n s)

/-- KDJ step `d = k.ewm(com=m2-1, adjust=False).mean()`. -/
def kdj_d (n m1 m2 : ℕ) (s : List Candle) : List FV :=
  ewmMean (qdiv 1 (m2 : ℚ)) (kdj_k n m1 s)

/-- KDJ step `j = 3 * k - 2 * d`. -/
def kdj_j (n m1 m2 : ℕ) (s : List Candle) : List FV :=
  List.zipWith
    (fun kv dv => FV.sub (FV.mul (FV.fin 3) kv) (FV.mul (FV.fin 2) dv))
    (kdj_k n m1 s) (kdj_d n m1 m2 s)

/-- TechnicalAnalysis.calculate_kdj: returns (K, D, J). -/
def calculate_kdj (n m1 m2 : ℕ) (s : List Candle) :
    List FV × List FV × List FV :=
  (kdj_k n m1 s, kdj_d n m1 m2 s, kdj_j n m1 m2 s)

/-- Bollinger middle band: `close.rolling(window=period).mean()`. -/
def calculate_bb_middle (period : ℕ) (s : List Candle) : List FV :=
  rollingMean period (closesF s)

/-- The square of `close.rolling(window=period).std()` (sample std,
ddof = 1).  The band computation `middle ± std * k` is tracked through
this variance: the square root maps `nan` to `nan` and a finite
nonnegative variance to a finite value, so a band entry is defined
exactly when the middle and the variance entries are (the width scalar k
is a finite constant). -/
def calculate_bb_var (period : ℕ) (s : List Candle) : List FV :=
  rollingVar period (closesF s)

/-- Definedness of the upper and lower Bollinger bands
(`middle + std * k` and `middle - std * k`): finite exactly when middle
and variance are finite. -/
def bb_band_isFin (period : ℕ) (s : List Candle) : List Bool :=
  List.zipWith (fun m v => FV.isFin m && FV.isFin v)
    (calculate_bb_middle period s) (calculate_bb_var period s)

/-- TechnicalAnalysis.calculate_atr:
`true_range.rolling(window=period).mean()`. -/
def calculate_atr (period : ℕ) (s : List Candle) : List FV :=
  rollingMean period (true_range s)

/-- Loop body of calculate_obv, carrying the previous OBV value and the
previous close: add the volume when the close rose, subtract when it
fell, carry otherwise. -/
def obvFrom (prev prevClose : ℚ) : List Candle → List ℚ
  | [] => []
  | c :: rest =>
      let nxt := if prevClose < c.close then qadd prev c.vol
                 else if c.close < prevClose then qsub prev c.vol
                 else prev
      nxt :: obvFrom nxt c.close rest

/-- TechnicalAnalysis.calculate_obv: `obv.iloc[0] = vol.iloc[0]` seeds the
cumulative sum, then the index-by-index loop.  On the empty series the
seeding line `self.data["vol"].iloc[0]` raises IndexError; `none` models
that raised exception. -/
def calculate_obv : List Candle → Option (List ℚ)
  | [] => none
  | c :: rest => some (c.vol :: obvFrom c.vol c.close rest)

/-- Fibonacci level labels map to prices; field lXXX is the level at
label `0.XXX` (l000 = label `0.0`, l1000 = label `1.0`). -/
structure FibLevels where
  l000 : ℚ
  l236 : ℚ
  l382 : ℚ
  l500 : ℚ
  l618 : ℚ
  l786 : ℚ
  l1000 : ℚ
deriving DecidableEq, Repr

/-- TechnicalAnalysis.calculate_fibonacci_retracement. -/
def calculate_fibonacci_retracement (high low : ℚ) : FibLevels :=
  let diff := qsub high low
  { l000 := high
    l236 := qsub high (qmul diff (mkRat 236 1000))
    l382 := qsub high (qmul diff (mkRat 382 1000))
    l500 := qsub high (qmul diff (mkRat 5 10))
    l618 := qsub high (qmul diff (mkRat 618 1000))
    l786 := qsub high (qmul diff (mkRat 786 1000))
    l1000 := low }

/-! ## Aggregator / Snapshot Builder and Batch Orchestrator -/

/-- The snapshot report built by `_analyze_single_asset` (the leading
underscore of the source name is dropped).  Indicator entries are
`Option FV`: `none` is the Python `None` produced by an explicit length
guard, `some FV.nan` is a pandas missing value that reached the last
position — both are the explicit missing marker. -/
structure Report where
  asset : String
  ma5 : Option FV
  ma20 : Option FV
  adx : Option FV
  rsi : Option FV
  macd_dif : Option FV
  fib_levels : FibLevels
  current_price : ℚ
  price_change_pct : FV
  total_candles : ℕ
  date_start : ℤ
  date_end : ℤ
deriving DecidableEq, Repr

/-- The source `_analyze_single_asset`: `None` on an empty series, else
the snapshot of latest values.  `x.iloc[-1]` is the value at the last
position, modelled by `getLast?`; the `if not x.empty` guards are always
true here since every Derived Series has the (non-zero) length of the
series.  The date-range entries hold the first and last timestamps; the
`len > 0` guards of the source are vacuous in this non-empty branch. -/
def analyze_single_asset (asset : String) (s : List Candle) : Option Report :=
  match s with
  | [] => none
  | c :: rest =>
      let s' := c :: rest
      let lastC := s'.getLast?.getD c
      let high_price := (rest.map Candle.high).foldl qmax c.high
      let low_price := (rest.map Candle.low).foldl qmin c.low
      some
        { asset := asset
          ma5 := if 5 ≤ s'.length then (calculate_ma 5 s').getLast? else none
          ma20 := if 20 ≤ s'.length then (calculate_ma 20 s').getLast? else none
          adx := (dmi_adx 14 s').getLast?
          rsi := (calculate_rsi 14 s').getLast?
          macd_dif := (macd_dif 12 26 s').getLast?
          fib_levels := calculate_fibonacci_retracement high_price low_price
          current_price := lastC.close
          price_change_pct :=
            FV.mul (FV.div (FV.fin (qsub lastC.close c.close)) (FV.fin c.close))
              (FV.fin 100)
          total_candles := s'.length
          date_start := c.datetime
          date_end := lastC.datetime }

/-- Python dict insertion: update in place if the key exists (keeping its
position), else append. -/
def dictInsert (k : String) (v : Report) : List (String × Report) → List (String × Report)
  | [] => [(k, v)]
  | (k2, v2) :: rest =>
      if k2 = k then (k2, v) :: rest else (k2, v2) :: dictInsert k v rest

/-- One loop iteration of the `inst_ids` branch of `analyze_all_assets`:
fetch candles from the data-retrieval collaborator (an opaque function
returning a Series or the NoData signal `none`; a `none` becomes an empty
frame).  An empty frame is skipped with `continue`; otherwise the
single-asset report is added when truthy.  The result mapping is a Python
dict in insertion order. -/
def batchStep (fetch : String → Option (List Candle))
    (results : List (String × Report)) (inst_id : String) :
    List (String × Report) :=
  let data := (fetch inst_id).getD []
  if data.isEmpty then results
  else
    match analyze_single_asset inst_id data with
    | some r => dictInsert inst_id r results
    | none => results

/-- The `inst_ids` branch of `analyze_all_assets`: loop `batchStep` over
the instrument list starting from an empty dict.  (The `data_file` branch
and the final file-persistence step are I/O collaborators outside the
core.) -/
def analyze_all_assets (fetch : String → Option (List Candle))
    (inst_ids : List String) : List (String × Report) :=
  inst_ids.foldl (batchStep fetch) []

/-- The full indicator table assembled by `get_all_indicators`.  Bollinger
upper/lower/width columns are tracked through the rolling variance and
definedness flags (see `calculate_bb_var`); `bb_width = (upper - lower) /
middle = 2k·std/middle` is finite exactly when middle and variance are
finite and the middle is non-zero. -/
structure IndicatorTable where
  datetime : List ℤ
  open_ : List ℚ
  high : List ℚ
  low : List ℚ
  close : List ℚ
  volume : List ℚ
  ma5 : List FV
  ma10 : List FV
  ma20 : List FV
  ma50 : List FV
  ema12 : List FV
  ema26 : List FV
  rsi14 : List FV
  rsi6 : List FV
  macd_dif : List FV
  macd_dea : List FV
  macd_hist : List FV
  kdj_k : List FV
  kdj_d : List FV
  kdj_j : List FV
  dmi_plus_di : List FV
  dmi_minus_di : List FV
  dmi_adx : List FV
  bb_middle : List FV
  bb_var : List FV
  bb_band_defined : List Bool
  bb_width_defined : List Bool
  atr14 : List FV
  obv : List ℚ
  price_change_1 : List FV
  price_change_5 : List FV
  price_change_20 : List FV
  volume_change : List FV
  volume_sma20 : List FV
deriving DecidableEq, Repr

/-- The empty DataFrame returned by `get_all_indicators` on an empty
series: every column empty. -/
def IndicatorTable.emptyTable : IndicatorTable :=
  { datetime := [], open_ := [], high := [], low := [], close := []
    volume := [], ma5 := [], ma10 := [], ma20 := [], ma50 := []
    ema12 := [], ema26 := [], rsi14 := [], rsi6 := [], macd_dif := []
    macd_dea := [], macd_hist := [], kdj_k := [], kdj_d := [], kdj_j := []
    dmi_plus_di := [], dmi_minus_di := [], dmi_adx := [], bb_middle := []
    bb_var := [], bb_band_defined := [], bb_width_defined := [], atr14 := []
    obv := [], price_change_1 := [], price_change_5 := []
    price_change_20 := [], volume_change := [], volume_sma20 := [] }

/-- Series.pct_change(periods=n) on a gap-free series:
`x / x.shift(n) - 1`. -/
def pct_change (n : ℕ) (l : List FV) : List FV :=
  List.zipWith (fun a b => FV.sub (FV.div a b) (FV.fin 1)) l (fshiftN n l)

/-- TechnicalAnalysis.get_all_indicators: the empty-series guard returns
an empty DataFrame; otherwise the full battery with the documented
default parameters is assembled.  The OBV loop would raise on an empty
series, which is exactly what the guard prevents; `Option.map` threads
its (here always successful) result. -/
def get_all_indicators (s : List Candle) : Option IndicatorTable :=
  if s.isEmpty then some IndicatorTable.emptyTable
  else
    (calculate_obv s).map fun obvl =>
      let macd := calculate_macd 12 26 9 s
      let kdj := calculate_kdj 9 3 3 s
      { datetime := s.map Candle.datetime
        open_ := s.map Candle.open_
        high := s.map Candle.high
        low := s.map Candle.low
        close := s.map Candle.close
        volume := s.map Candle.vol
        ma5 := calculate_ma 5 s
        ma10 := calculate_ma 10 s
        ma20 := calculate_ma 20 s
        ma50 := calculate_ma 50 s
        ema12 := calculate_ema 12 s
        ema26 := calculate_ema 26 s
        rsi14 := calculate_rsi 14 s
        rsi6 := calculate_rsi 6 s
        macd_dif := macd.1
        macd_dea := macd.2.1
        macd_hist := macd.2.2
        kdj_k := kdj.1
        kdj_d := kdj.2.1
        kdj_j := kdj.2.2
        dmi_plus_di := dmi_plus_di 14 s
        dmi_minus_di := dmi_minus_di 14 s
        dmi_adx := dmi_adx 14 s
        bb_middle := calculate_bb_middle 20 s
        bb_var := calculate_bb_var 20 s
        bb_band_defined := bb_band_isFin 20 s
        bb_width_defined := List.zipWith
          (fun m v => FV.isFin m && FV.isFin v && decide (m ≠ FV.fin 0))
          (calculate_bb_middle 20 s) (calculate_bb_var 20 s)
        atr14 := calculate_atr 14 s
        obv := obvl
        price_change_1 := (pct_change 1 (closesF s)).map (fun x => FV.mul x (FV.fin 100))
        price_change_5 := (pct_change 5 (closesF s)).map (fun x => FV.mul x (FV.fin 100))
        price_change_20 := (pct_change 20 (closesF s)).map (fun x => FV.mul x (FV.fin 100))
        volume_change := (pct_change 1 (volsF s)).map (fun x => FV.mul x (FV.fin 100))
        volume_sma20 := rollingMean 20 (volsF s) }

/-! ## Lemma kit: lengths, pointwise access, and nan propagation -/

theorem zip_getElem? {α β γ : Type} (f : α → β → γ) (a : List α) (b : List β)
    (i : ℕ) (x : α) (y : β) (hx : a[i]? = some x) (hy : b[i]? = some y) :
    (List.zipWith f a b)[i]? = some (f x y) :=
  List.getElem?_zipWith_eq_some.2 ⟨x, y, hx, hy, rfl⟩

theorem getElem?_some_of_lt {α : Type} (l : List α) (i : ℕ) (h : i < l.length) :
    ∃ y, l[i]? = some y := ⟨l[i], List.getElem?_eq_getElem h⟩

theorem length_fdiff (l : List FV) : (fdiff l).length = l.length := by
  cases l with
  | nil => rfl
  | cons x xs => simp [fdiff]

theorem length_fshift (l : List FV) : (fshift l).length = l.length := by
  cases l with
  | nil => rfl
  | cons x xs => simp [fshift]

theorem length_rollingApply (f : List FV → FV) (p : ℕ) (l : List FV) :
    (rollingApply f p l).length = l.length := by
  simp [rollingApply]

theorem getElem?_rollingApply (f : List FV → FV) (p : ℕ) (l : List FV) (i : ℕ)
    (h : i < l.length) :
    (rollingApply f p l)[i]? =
      some (if i + 1 < p then FV.nan else f (window p i l)) := by
  unfold rollingApply
  rw [List.getElem?_map, List.getElem?_range h, Option.map_some']

theorem getElem?_window (p i : ℕ) (l : List FV) (k : ℕ) :
    (window p i l)[k]? =
      if i + 1 - p + k < i + 1 then l[i + 1 - p + k]? else none := by
  unfold window
  rw [List.getElem?_drop]
  split
  case isTrue h => exact List.getElem?_take_of_lt h
  case isFalse h =>
    rw [List.getElem?_eq_none_iff]
    have : (l.take (i + 1)).length ≤ i + 1 := by
      simp [List.length_take]
    omega

theorem mem_window_of_getElem? (p i : ℕ) (l : List FV) (j : ℕ) (x : FV)
    (h1 : i + 1 - p ≤ j) (h2 : j ≤ i) (hx : l[j]? = some x) :
    x ∈ window p i l := by
  have hk : i + 1 - p + (j - (i + 1 - p)) = j := by omega
  have : (window p i l)[j - (i + 1 - p)]? = some x := by
    rw [getElem?_window, hk, if_pos (by omega)]
    exact hx
  exact List.getElem?_mem this

theorem windowMean_nan_of_mem (p : ℕ) (w : List FV) (h : FV.nan ∈ w) :
    windowMean p w = FV.nan := by
  unfold windowMean
  rw [if_pos]
  exact List.any_eq_true.2 ⟨FV.nan, h, rfl⟩

theorem rollingMean_nan_lowidx (p : ℕ) (l : List FV) (i : ℕ)
    (hi : i < l.length) (h : i + 1 < p) :
    (rollingMean p l)[i]? = some FV.nan := by
  rw [rollingMean, getElem?_rollingApply _ _ _ _ hi, if_pos h]

theorem rollingMean_nan_of_nanmem (p : ℕ) (l : List FV) (i j : ℕ)
    (hi : i < l.length) (h1 : i + 1 - p ≤ j) (h2 : j ≤ i)
    (hj : l[j]? = some FV.nan) :
    (rollingMean p l)[i]? = some FV.nan := by
  rw [rollingMean, getElem?_rollingApply _ _ _ _ hi]
  split
  case isTrue => rfl
  case isFalse =>
    rw [windowMean_nan_of_mem _ _ (mem_window_of_getElem? p i l j FV.nan h1 h2 hj)]

theorem rollingMean_short (p : ℕ) (l : List FV) (h : l.length < p) :
    rollingMean p l = List.replicate l.length FV.nan := by
  apply List.ext_getElem?
  intro i
  by_cases hi : i < l.length
  · rw [rollingMean_nan_lowidx p l i hi (by omega),
      List.getElem?_eq_getElem (by simpa using hi), List.getElem_replicate]
  · rw [List.getElem?_eq_none_iff.2 (by simp [rollingMean, length_rollingApply]; omega),
      List.getElem?_eq_none_iff.2 (by simp; omega)]

theorem rollingApply_short (f : List FV → FV) (p : ℕ) (l : List FV)
    (h : l.length < p) :
    rollingApply f p l = List.replicate l.length FV.nan := by
  apply List.ext_getElem?
  intro i
  by_cases hi : i < l.length
  · rw [getElem?_rollingApply _ _ _ _ hi, if_pos (by omega),
      List.getElem?_eq_getElem (by simpa using hi), List.getElem_replicate]
  · rw [List.getElem?_eq_none_iff.2 (by rw [length_rollingApply]; omega),
      List.getElem?_eq_none_iff.2 (by simp; omega)]

theorem foldl_add_fin (w : List FV) (a : ℚ)
    (h : ∀ x ∈ w, ∃ q, x = FV.fin q) :
    ∃ q, w.foldl FV.add (FV.fin a) = FV.fin q := by
  induction w generalizing a with
  | nil => exact ⟨a, rfl⟩
  | cons x xs ih =>
      obtain ⟨q, hq⟩ := h x (List.mem_cons_self x xs)
      subst hq
      rw [List.foldl_cons, FV.add_fin]
      exact ih (a + q) (fun y hy => h y (List.mem_cons_of_mem _ hy))

theorem foldl_add_fin_nonneg (w : List FV) (a : ℚ) (ha : 0 ≤ a)
    (h : ∀ x ∈ w, ∃ q, x = FV.fin q ∧ 0 ≤ q) :
    ∃ q, w.foldl FV.add (FV.fin a) = FV.fin q ∧ 0 ≤ q := by
  induction w generalizing a with
  | nil => exact ⟨a, rfl, ha⟩
  | cons x xs ih =>
      obtain ⟨q, hq, hq0⟩ := h x (List.mem_cons_self x xs)
      subst hq
      rw [List.foldl_cons, FV.add_fin]
      exact ih (a + q) (by linarith) (fun y hy => h y (List.mem_cons_of_mem _ hy))

theorem not_any_isNan_of_allfin (w : List FV)
    (h : ∀ x ∈ w, ∃ q, x = FV.fin q) : w.any FV.isNan = false := by
  rw [← Bool.not_eq_true, List.any_eq_true]
  rintro ⟨x, hx, hnan⟩
  obtain ⟨q, rfl⟩ := h x hx
  exact Bool.false_ne_true hnan

theorem windowMean_fin (p : ℕ) (w : List FV) (hp : 1 ≤ p)
    (h : ∀ x ∈ w, ∃ q, x = FV.fin q) :
    ∃ q, windowMean p w = FV.fin q := by
  unfold windowMean
  rw [if_neg (by rw [not_any_isNan_of_allfin w h]; exact Bool.false_ne_true)]
  obtain ⟨q, hq⟩ := foldl_add_fin w 0 h
  rw [hq]
  refine ⟨q / p, ?_⟩
  rw [FV.div_fin]
  rw [if_neg (Nat.cast_ne_zero.2 (Nat.pos_iff_ne_zero.1 hp))]

theorem window_length (p i : ℕ) (l : List FV) (hi : i < l.length)
    (hp : p ≤ i + 1) : (window p i l).length = p := by
  unfold window
  rw [List.length_drop, List.length_take]
  omega

theorem windowMean_nonneg_cases (p : ℕ) (w : List FV) (hlen : w.length = p)
    (h : ∀ x ∈ w, ∃ q, x = FV.fin q ∧ 0 ≤ q) :
    windowMean p w = FV.nan ∨ ∃ q, windowMean p w = FV.fin q ∧ 0 ≤ q := by
  unfold windowMean
  rw [if_neg (by
    rw [not_any_isNan_of_allfin w (fun x hx => ⟨(h x hx).choose, (h x hx).choose_spec.1⟩)]
    exact Bool.false_ne_true)]
  obtain ⟨q, hq, hq0⟩ := foldl_add_fin_nonneg w 0 le_rfl h
  rw [hq, FV.div_fin]
  by_cases hp : (p : ℚ) = 0
  · rw [if_pos hp]
    have hp0 : p = 0 := by exact_mod_cast hp
    have hw : w = [] := List.length_eq_zero.1 (by omega)
    have hq2 : q = 0 := by
      rw [hw] at hq
      simp only [List.foldl_nil] at hq
      injection hq with h2
      exact h2.symm
    rw [if_pos hq2]
    exact Or.inl rfl
  · rw [if_neg hp]
    exact Or.inr ⟨q / p, rfl, by positivity⟩

theorem mem_rollingMean_cases (p : ℕ) (l : List FV) (y : FV)
    (hy : y ∈ rollingMean p l)
    (h : ∀ x ∈ l, ∃ q, x = FV.fin q ∧ 0 ≤ q) :
    y = FV.nan ∨ ∃ q, y = FV.fin q ∧ 0 ≤ q := by
  obtain ⟨i, hi⟩ := List.mem_iff_getElem?.1 hy
  have hlen : i < l.length := by
    by_contra hc
    rw [List.getElem?_eq_none_iff.2 (by rw [rollingMean, length_rollingApply]; omega)] at hi
    exact Option.noConfusion hi
  rw [rollingMean, getElem?_rollingApply _ _ _ _ hlen] at hi
  injection hi with hi
  split at hi
  · exact Or.inl hi.symm
  case isFalse hcond =>
    rw [← hi]
    apply windowMean_nonneg_cases _ _ (window_length p i l hlen (by omega))
    intro x hx
    exact h x (List.mem_of_mem_take (List.mem_of_mem_drop hx))

theorem mem_fdiff_cases (l : List FV) (x : FV) (hx : x ∈ fdiff l)
    (h : ∀ y ∈ l, ∃ q, y = FV.fin q) :
    x = FV.nan ∨ ∃ q, x = FV.fin q := by
  cases l with
  | nil => simp [fdiff] at hx
  | cons c rest =>
      rw [fdiff] at hx
      rcases List.mem_cons.1 hx with h1 | h2
      · exact Or.inl h1
      · obtain ⟨i, hi⟩ := List.mem_iff_getElem?.1 h2
        rcases List.getElem?_zipWith_eq_some.1 hi with ⟨u, v, hu, hv, hx2⟩
        obtain ⟨a, rfl⟩ := h u (List.mem_cons_of_mem _ (List.getElem?_mem hu))
        obtain ⟨b, rfl⟩ := h v (List.getElem?_mem hv)
        exact Or.inr ⟨a - b, by rw [← hx2, FV.sub_fin]⟩

theorem mem_closesF (s : List Candle) (y : FV) (hy : y ∈ closesF s) :
    ∃ q, y = FV.fin q := by
  obtain ⟨c, _, rfl⟩ := List.mem_map.1 hy
  exact ⟨c.close, rfl⟩

theorem mem_rsi_gain (s : List Candle) (x : FV) (hx : x ∈ rsi_gain s) :
    ∃ q, x = FV.fin q ∧ 0 ≤ q := by
  obtain ⟨d, hd, rfl⟩ := List.mem_map.1 hx
  rcases mem_fdiff_cases _ d hd (mem_closesF s) with h1 | ⟨q, rfl⟩
  · subst h1
    exact ⟨0, by simp [FV.lt], le_rfl⟩
  · by_cases hq : 0 < q
    · refine ⟨q, ?_, le_of_lt hq⟩
      simp [FV.lt, hq]
    · refine ⟨0, ?_, le_rfl⟩
      simp [FV.lt, hq]

theorem mem_rsi_loss (s : List Candle) (x : FV) (hx : x ∈ rsi_loss s) :
    ∃ q, x = FV.fin q ∧ 0 ≤ q := by
  obtain ⟨d, hd, rfl⟩ := List.mem_map.1 hx
  rcases mem_fdiff_cases _ d hd (mem_closesF s) with h1 | ⟨q, rfl⟩
  · subst h1
    exact ⟨0, by simp [FV.lt, FV.neg, rat_neg_eq], le_rfl⟩
  · by_cases hq : q < 0
    · refine ⟨-q, ?_, by linarith⟩
      simp [FV.lt, hq, FV.neg, rat_neg_eq]
    · refine ⟨0, ?_, le_rfl⟩
      simp [FV.lt, hq, FV.neg, rat_neg_eq]

theorem FV.add_fin_pinf (a : ℚ) : FV.add (FV.fin a) FV.pinf = FV.pinf := rfl

theorem FV.div_fin_pinf (a : ℚ) : FV.div (FV.fin a) FV.pinf = FV.fin 0 := rfl

/-- C9: for every finite input series and period p, every defined
position of the RSI Derived Series carries a value in [0, 100].  A
defined position is one holding a finite value `FV.fin x`; undefined
positions hold `nan` (and `±inf` never survives to the output: an
infinite RS collapses to exactly 100). -/
theorem rsi_bounded (s : List Candle) (p i : ℕ) (x : ℚ)
    (h : (calculate_rsi p s)[i]? = some (FV.fin x)) : 0 ≤ x ∧ x ≤ 100 := by
  unfold calculate_rsi rsi_avg_gain rsi_avg_loss at h
  rw [List.getElem?_map] at h
  obtain ⟨rs, hrs, hphi⟩ := Option.map_eq_some'.1 h
  obtain ⟨u, v, hu, hv, huv⟩ := List.getElem?_zipWith_eq_some.1 hrs
  have hu2 := mem_rollingMean_cases p (rsi_gain s) u (List.getElem?_mem hu) (mem_rsi_gain s)
  have hv2 := mem_rollingMean_cases p (rsi_loss s) v (List.getElem?_mem hv) (mem_rsi_loss s)
  rcases hu2 with rfl | ⟨a, rfl, ha⟩
  · rw [← huv] at hphi
    simp only [FV.nan_div, FV.add_nan, FV.div_nan, FV.sub_nan] at hphi
    exact FV.noConfusion hphi
  · rcases hv2 with rfl | ⟨b, rfl, hb⟩
    · rw [← huv] at hphi
      simp only [FV.div_nan, FV.add_nan, FV.sub_nan] at hphi
      exact FV.noConfusion hphi
    · rw [← huv, FV.div_fin] at hphi
      by_cases hbz : b = 0
      · rw [if_pos hbz] at hphi
        by_cases haz : a = 0
        · rw [if_pos haz] at hphi
          simp only [FV.add_nan, FV.div_nan, FV.sub_nan] at hphi
          exact FV.noConfusion hphi
        · rw [if_neg haz, if_pos (lt_of_le_of_ne ha (Ne.symm haz))] at hphi
          rw [FV.add_fin_pinf, FV.div_fin_pinf, FV.sub_fin] at hphi
          injection hphi with hx
          constructor <;> [linarith [hx]; linarith [hx]]
      · rw [if_neg hbz] at hphi
        have hq : 0 ≤ a / b := div_nonneg ha hb
        rw [FV.add_fin, FV.div_fin, if_neg (by positivity), FV.sub_fin] at hphi
        injection hphi with hx
        have h2 : 100 / (1 + a / b) ≤ 100 := div_le_self (by norm_num) (by linarith)
        have h3 : 0 ≤ 100 / (1 + a / b) := by positivity
        constructor <;> linarith [hx]

/-- Concrete closes 1, 2, 3: only gains, so average loss is 0 and the RSI
at the first covered position saturates at exactly 100. -/
def rsiWitS : List Candle :=
  [{ datetime := 0, open_ := 0, high := 0, low := 0, close := 1, vol := 0 },
   { datetime := 1, open_ := 0, high := 0, low := 0, close := 2, vol := 0 },
   { datetime := 2, open_ := 0, high := 0, low := 0, close := 3, vol := 0 }]

/-- Witness for C9: position 1 of RSI(2) over closes 1,2,3 is defined and
the theorem yields its bounds. -/
theorem rsi_bounded_witness :
    (calculate_rsi 2 rsiWitS)[1]? = some (FV.fin 100) ∧
      (0 ≤ (100 : ℚ) ∧ (100 : ℚ) ≤ 100) :=
  ⟨by decide, rsi_bounded rsiWitS 2 1 100 (by decide)⟩

theorem length_rollingMean (p : ℕ) (l : List FV) :
    (rollingMean p l).length = l.length := length_rollingApply _ _ _

theorem length_closesF (s : List Candle) : (closesF s).length = s.length :=
  List.length_map _ _

theorem length_rsi_gain (s : List Candle) : (rsi_gain s).length = s.length := by
  rw [rsi_gain, List.length_map, rsi_delta, length_fdiff, length_closesF]

theorem length_rsi_loss (s : List Candle) : (rsi_loss s).length = s.length := by
  rw [rsi_loss, List.length_map, rsi_delta, length_fdiff, length_closesF]

theorem length_rsi_avg_gain (p : ℕ) (s : List Candle) :
    (rsi_avg_gain p s).length = s.length := by
  rw [rsi_avg_gain, length_rollingMean, length_rsi_gain]

theorem length_rsi_avg_loss (p : ℕ) (s : List Candle) :
    (rsi_avg_loss p s).length = s.length := by
  rw [rsi_avg_loss, length_rollingMean, length_rsi_loss]

theorem length_calculate_rsi (p : ℕ) (s : List Candle) :
    (calculate_rsi p s).length = s.length := by
  rw [calculate_rsi, List.length_map, List.length_zipWith,
    length_rsi_avg_gain, length_rsi_avg_loss, min_self]

theorem windowMean_zero_empty : windowMean 0 ([] : List FV) = FV.nan := by
  unfold windowMean
  rw [if_neg (by simp)]
  rw [List.foldl_nil]
  rw [show ((0 : ℕ) : ℚ) = 0 from rfl, FV.div_fin]
  norm_num

/-- C4 (amended): at every position where the trailing-p average loss is
defined and zero, the average gain is also defined there with some
nonnegative value g; the RSI value is then 100 when g is positive and the
missing marker when g is zero (a flat window: 0/0 gives nan, not 100).
Moreover only the first p-1 positions (indices 0..p-2) are always
undefined, not the first p as claimed: the where-clause turns the leading
nan delta into a zero gain/loss, so the rolling window is already full at
index p-1. -/
theorem rsi_zero_loss_saturation (s : List Candle) (p i : ℕ) :
    ((rsi_avg_loss p s)[i]? = some (FV.fin 0) →
      ∃ g : ℚ, 0 ≤ g ∧ (rsi_avg_gain p s)[i]? = some (FV.fin g) ∧
        (calculate_rsi p s)[i]? = some (if g = 0 then FV.nan else FV.fin 100)) ∧
    (i + 1 < p → i < s.length → (calculate_rsi p s)[i]? = some FV.nan) := by
  constructor
  · intro h
    have hil : i < (rsi_loss s).length := by
      by_contra hc
      rw [List.getElem?_eq_none_iff.2
        (by rw [rsi_avg_loss, length_rollingMean]; omega)] at h
      exact Option.noConfusion h
    have hig : i < (rsi_gain s).length := by
      rw [length_rsi_gain]
      rw [length_rsi_loss] at hil
      omega
    have h2 := h
    rw [rsi_avg_loss, rollingMean, getElem?_rollingApply _ _ _ _ hil] at h2
    injection h2 with h2
    by_cases hp : i + 1 < p
    · rw [if_pos hp] at h2
      exact absurd h2 (by simp)
    rw [if_neg hp] at h2
    have hp1 : 1 ≤ p := by
      by_contra hp0
      have hpz : p = 0 := by omega
      subst hpz
      have hwin : window 0 i (rsi_loss s) = [] := by
        unfold window
        refine List.drop_eq_nil_of_le ?_
        rw [List.length_take]
        omega
      rw [hwin, windowMean_zero_empty] at h2
      exact FV.noConfusion h2
    have hfin : ∀ x ∈ window p i (rsi_gain s), ∃ q, x = FV.fin q ∧ 0 ≤ q :=
      fun x hx => mem_rsi_gain s x (List.mem_of_mem_take (List.mem_of_mem_drop hx))
    obtain ⟨G, hG, hG0⟩ := foldl_add_fin_nonneg (window p i (rsi_gain s)) 0 le_rfl hfin
    have hAG : (rsi_avg_gain p s)[i]? = some (FV.fin (G / p)) := by
      rw [rsi_avg_gain, rollingMean, getElem?_rollingApply _ _ _ _ hig, if_neg hp]
      congr 1
      unfold windowMean
      rw [if_neg (by
        rw [not_any_isNan_of_allfin (window p i (rsi_gain s))
          (fun x hx => ⟨(hfin x hx).choose, (hfin x hx).choose_spec.1⟩)]
        exact Bool.false_ne_true)]
      rw [hG, FV.div_fin, if_neg (Nat.cast_ne_zero.2 (Nat.pos_iff_ne_zero.1 hp1))]
    refine ⟨G / p, by positivity, hAG, ?_⟩
    rw [calculate_rsi, List.getElem?_map, zip_getElem? _ _ _ _ _ _ hAG h,
      Option.map_some']
    rw [FV.div_fin, if_pos rfl]
    by_cases hGz : G / (p : ℚ) = 0
    · rw [if_pos hGz, if_pos hGz]
      simp
    · rw [if_neg hGz, if_pos (lt_of_le_of_ne (by positivity) (Ne.symm hGz)),
        if_neg hGz]
      rw [FV.add_fin_pinf, FV.div_fin_pinf, FV.sub_fin]
      norm_num
  · intro hp hi
    have hAG : (rsi_avg_gain p s)[i]? = some FV.nan := by
      rw [rsi_avg_gain]
      exact rollingMean_nan_lowidx p _ i (by rw [length_rsi_gain]; exact hi) hp
    have hAL : (rsi_avg_loss p s)[i]? = some FV.nan := by
      rw [rsi_avg_loss]
      exact rollingMean_nan_lowidx p _ i (by rw [length_rsi_loss]; exact hi) hp
    rw [calculate_rsi, List.getElem?_map, zip_getElem? _ _ _ _ _ _ hAG hAL,
      Option.map_some']
    simp

/-- Closes 5, 5, 5: a completely flat series, every delta zero. -/
def rsiFlatS : List Candle :=
  [{ datetime := 0, open_ := 0, high := 0, low := 0, close := 5, vol := 0 },
   { datetime := 1, open_ := 0, high := 0, low := 0, close := 5, vol := 0 },
   { datetime := 2, open_ := 0, high := 0, low := 0, close := 5, vol := 0 }]

/-- Counterexample to C4 as stated: with period 2 over closes 5,5,5 the
trailing average loss at position 2 is (defined and) zero, yet the RSI
value there is the missing marker, not 100 (the average gain is also
zero, so RS is 0/0 = nan); and with period 2 over closes 1,2,3 position 1
lies among "the first p positions" yet the RSI there is defined (= 100),
because the rolling window is already full at index p-1. -/
theorem rsi_zero_loss_cex :
    (rsi_avg_loss 2 rsiFlatS)[2]? = some (FV.fin 0) ∧
      (calculate_rsi 2 rsiFlatS)[2]? = some FV.nan ∧
      (calculate_rsi 2 rsiWitS)[1]? = some (FV.fin 100) := by decide

/-- Witness for C4 (amended): at the flat series the hypothesis of the
first part holds at position 2 (average loss 0) and the theorem yields
the missing marker there; the second part applies at position 0. -/
theorem rsi_zero_loss_witness :
    (calculate_rsi 2 rsiFlatS)[2]? = some FV.nan ∧
      (calculate_rsi 2 rsiFlatS)[0]? = some FV.nan := by
  constructor
  · obtain ⟨g, hg0, hgval, hrsi⟩ :=
      (rsi_zero_loss_saturation rsiFlatS 2 2).1 (by decide)
    have hzero : (rsi_avg_gain 2 rsiFlatS)[2]? = some (FV.fin 0) := by decide
    rw [hzero] at hgval
    injection hgval with hgval
    injection hgval with hgval
    rw [← hgval, if_pos rfl] at hrsi
    exact hrsi
  · exact (rsi_zero_loss_saturation rsiFlatS 2 0).2 (by decide) (by decide)

theorem zipWith_left_const {α β γ : Type} (f : α → β → γ) (a : α) (c : γ)
    (hf : ∀ x, f a x = c) (n : ℕ) (l : List β) (hl : l.length = n) :
    List.zipWith f (List.replicate n a) l = List.replicate n c := by
  induction n generalizing l with
  | zero => simp
  | succ k ih =>
      cases l with
      | nil => simp at hl
      | cons x xs =>
          rw [List.replicate_succ, List.replicate_succ, List.zipWith_cons_cons,
            hf, ih xs (by simpa using hl)]

theorem zipWith_right_const {α β γ : Type} (f : α → β → γ) (b : β) (c : γ)
    (hf : ∀ x, f x b = c) (n : ℕ) (l : List α) (hl : l.length = n) :
    List.zipWith f l (List.replicate n b) = List.replicate n c := by
  induction n generalizing l with
  | zero => simp
  | succ k ih =>
      cases l with
      | nil => simp at hl
      | cons x xs =>
          rw [List.replicate_succ, List.replicate_succ, List.zipWith_cons_cons,
            hf, ih xs (by simpa using hl)]

theorem ewmGo_replicate_nan (a : ℚ) (n : ℕ) :
    ewmGo a none (List.replicate n FV.nan) = List.replicate n FV.nan := by
  induction n with
  | zero => rfl
  | succ k ih =>
      rw [List.replicate_succ]
      show FV.nan :: ewmGo a none (List.replicate k FV.nan)
        = FV.nan :: List.replicate k FV.nan
      rw [ih]

theorem length_highsF (s : List Candle) : (highsF s).length = s.length :=
  List.length_map _ _

theorem length_lowsF (s : List Candle) : (lowsF s).length = s.length :=
  List.length_map _ _

theorem length_volsF (s : List Candle) : (volsF s).length = s.length :=
  List.length_map _ _

theorem length_zipWith3 (f : FV → FV → FV → FV) :
    ∀ (a b c : List FV),
      (zipWith3 f a b c).length = min a.length (min b.length c.length)
  | [], b, c => by cases b <;> cases c <;> simp [zipWith3]
  | x :: xs, [], c => by cases c <;> simp [zipWith3]
  | x :: xs, y :: ys, [] => by simp [zipWith3]
  | x :: xs, y :: ys, z :: zs => by
      rw [zipWith3]
      simp only [List.length_cons, length_zipWith3 f xs ys zs]
      omega

theorem length_true_range (s : List Candle) :
    (true_range s).length = s.length := by
  unfold true_range
  rw [length_zipWith3]
  simp only [List.length_zipWith, List.length_map, length_highsF, length_lowsF,
    length_closesF, length_fshift]
  omega

theorem length_dmi_plus_dm_raw (s : List Candle) :
    (dmi_plus_dm_raw s).length = s.length := by
  rw [dmi_plus_dm_raw, length_fdiff, length_highsF]

theorem length_dmi_minus_dm_raw (s : List Candle) :
    (dmi_minus_dm_raw s).length = s.length := by
  rw [dmi_minus_dm_raw, List.length_map, length_fdiff, length_lowsF]

theorem length_dmi_dm_fst (s : List Candle) :
    (dmi_dm s).1.length = s.length := by
  show (dmi_plus_dm s).length = s.length
  unfold dmi_plus_dm
  simp only [List.length_zipWith, List.length_map, length_dmi_plus_dm_raw,
    length_dmi_minus_dm_raw]
  omega

theorem length_dmi_dm_snd (s : List Candle) :
    (dmi_dm s).2.length = s.length := by
  show (dmi_minus_dm s).length = s.length
  unfold dmi_minus_dm
  rw [List.length_zipWith, List.length_map, length_dmi_minus_dm_raw,
    show (dmi_plus_dm s).length = s.length from length_dmi_dm_fst s]
  omega

theorem length_dmi_plus_di (p : ℕ) (s : List Candle) :
    (dmi_plus_di p s).length = s.length := by
  unfold dmi_plus_di
  simp only [List.length_zipWith, List.length_map, length_rollingMean,
    length_dmi_dm_fst, length_true_range]
  omega

theorem length_dmi_minus_di (p : ℕ) (s : List Candle) :
    (dmi_minus_di p s).length = s.length := by
  unfold dmi_minus_di
  simp only [List.length_zipWith, List.length_map, length_rollingMean,
    length_dmi_dm_snd, length_true_range]
  omega

theorem dmi_plus_di_short (p : ℕ) (s : List Candle) (h : s.length < p) :
    dmi_plus_di p s = List.replicate s.length FV.nan := by
  unfold dmi_plus_di
  rw [show rollingMean p (dmi_dm s).1 = List.replicate s.length FV.nan from by
    rw [← length_dmi_dm_fst s]
    exact rollingMean_short p _ (by rw [length_dmi_dm_fst]; exact h)]
  rw [List.map_replicate, FV.mul_nan]
  exact zipWith_left_const FV.div FV.nan FV.nan FV.nan_div s.length _
    (by rw [length_rollingMean, length_true_range])

theorem dmi_minus_di_short (p : ℕ) (s : List Candle) (h : s.length < p) :
    dmi_minus_di p s = List.replicate s.length FV.nan := by
  unfold dmi_minus_di
  rw [show rollingMean p (dmi_dm s).2 = List.replicate s.length FV.nan from by
    rw [← length_dmi_dm_snd s]
    exact rollingMean_short p _ (by rw [length_dmi_dm_snd]; exact h)]
  rw [List.map_replicate, FV.mul_nan]
  exact zipWith_left_const FV.div FV.nan FV.nan FV.nan_div s.length _
    (by rw [length_rollingMean, length_true_range])

theorem length_dmi_dx (p : ℕ) (s : List Candle) :
    (List.zipWith FV.div
      ((List.zipWith FV.sub (dmi_plus_di p s) (dmi_minus_di p s)).map
        (fun x => FV.mul (FV.fin 100) (FV.abs x)))
      (List.zipWith FV.add (dmi_plus_di p s) (dmi_minus_di p s))).length
      = s.length := by
  simp only [List.length_zipWith, List.length_map, length_dmi_plus_di,
    length_dmi_minus_di]
  omega

theorem dmi_adx_short (p : ℕ) (s : List Candle) (h : s.length < p) :
    dmi_adx p s = List.replicate s.length FV.nan := by
  unfold dmi_adx
  rw [← length_dmi_dx p s]
  exact rollingMean_short p _ (by rw [length_dmi_dx]; exact h)

theorem calculate_ma_short (p : ℕ) (s : List Candle) (h : s.length < p) :
    calculate_ma p s = List.replicate s.length FV.nan := by
  unfold calculate_ma
  rw [← length_closesF s]
  exact rollingMean_short p _ (by rw [length_closesF]; exact h)

theorem calculate_atr_short (p : ℕ) (s : List Candle) (h : s.length < p) :
    calculate_atr p s = List.replicate s.length FV.nan := by
  unfold calculate_atr
  rw [← length_true_range s]
  exact rollingMean_short p _ (by rw [length_true_range]; exact h)

theorem calculate_rsi_short (p : ℕ) (s : List Candle) (h : s.length < p) :
    calculate_rsi p s = List.replicate s.length FV.nan := by
  unfold calculate_rsi
  rw [show rsi_avg_gain p s = List.replicate s.length FV.nan from by
    rw [rsi_avg_gain, ← length_rsi_gain s]
    exact rollingMean_short p _ (by rw [length_rsi_gain]; exact h)]
  rw [zipWith_left_const FV.div FV.nan FV.nan FV.nan_div s.length _
    (length_rsi_avg_loss p s)]
  rw [List.map_replicate]
  simp

theorem calculate_bb_middle_short (p : ℕ) (s : List Candle) (h : s.length < p) :
    calculate_bb_middle p s = List.replicate s.length FV.nan := by
  unfold calculate_bb_middle
  rw [← length_closesF s]
  exact rollingMean_short p _ (by rw [length_closesF]; exact h)

theorem length_calculate_bb_var (p : ℕ) (s : List Candle) :
    (calculate_bb_var p s).length = s.length := by
  rw [calculate_bb_var, rollingVar, length_rollingApply, length_closesF]

theorem calculate_bb_var_short (p : ℕ) (s : List Candle) (h : s.length < p) :
    calculate_bb_var p s = List.replicate s.length FV.nan := by
  unfold calculate_bb_var rollingVar
  rw [← length_closesF s]
  exact rollingApply_short _ p _ (by rw [length_closesF]; exact h)

theorem bb_band_isFin_short (p : ℕ) (s : List Candle) (h : s.length < p) :
    bb_band_isFin p s = List.replicate s.length false := by
  unfold bb_band_isFin
  rw [calculate_bb_middle_short p s h]
  exact zipWith_left_const _ FV.nan false (fun x => by simp) s.length _
    (length_calculate_bb_var p s)

theorem kdj_rsv_short (n : ℕ) (s : List Candle) (h : s.length < n) :
    kdj_rsv n s = List.replicate s.length FV.nan := by
  unfold kdj_rsv
  rw [show rollingMin n (lowsF s) = List.replicate s.length FV.nan from by
    rw [rollingMin, ← length_lowsF s]
    exact rollingApply_short _ n _ (by rw [length_lowsF]; exact h)]
  rw [zipWith_right_const FV.sub FV.nan FV.nan FV.sub_nan s.length _
    (length_closesF s)]
  rw [zipWith_left_const FV.div FV.nan FV.nan FV.nan_div s.length _
    (by rw [List.length_zipWith, rollingMax, length_rollingApply, length_highsF,
      List.length_replicate, min_self])]
  rw [List.map_replicate]
  simp

theorem kdj_k_short (n m1 : ℕ) (s : List Candle) (h : s.length < n) :
    kdj_k n m1 s = List.replicate s.length FV.nan := by
  unfold kdj_k ewmMean
  rw [kdj_rsv_short n s h, ewmGo_replicate_nan]

theorem kdj_d_short (n m1 m2 : ℕ) (s : List Candle) (h : s.length < n) :
    kdj_d n m1 m2 s = List.replicate s.length FV.nan := by
  unfold kdj_d ewmMean
  rw [kdj_k_short n m1 s h, ewmGo_replicate_nan]

theorem kdj_j_short (n m1 m2 : ℕ) (s : List Candle) (h : s.length < n) :
    kdj_j n m1 m2 s = List.replicate s.length FV.nan := by
  unfold kdj_j
  rw [kdj_k_short n m1 s h]
  exact zipWith_left_const _ FV.nan FV.nan (fun x => by simp) s.length _
    (by rw [kdj_d_short n m1 m2 s h, List.length_replicate])

/-- C2 (amended): every indicator of the library tolerates a series
shorter than its minimum lookback by returning an entirely-missing
Derived Series of the input length — with the exception of OBV, whose
seeding line `obv.iloc[0] = vol.iloc[0]` raises IndexError on the empty
series (modelled as `none`) instead of returning the empty Derived
Series.  The EMA- and MACD-family indicators have minimum lookback 1, so
only the empty series is shorter, where they return the empty series. -/
theorem indicator_short_series (s : List Candle) (p fast slow signal n m1 m2 : ℕ) :
    (s.length < p →
      calculate_ma p s = List.replicate s.length FV.nan ∧
      calculate_rsi p s = List.replicate s.length FV.nan ∧
      calculate_atr p s = List.replicate s.length FV.nan ∧
      dmi_plus_di p s = List.replicate s.length FV.nan ∧
      dmi_minus_di p s = List.replicate s.length FV.nan ∧
      dmi_adx p s = List.replicate s.length FV.nan ∧
      calculate_bb_middle p s = List.replicate s.length FV.nan ∧
      calculate_bb_var p s = List.replicate s.length FV.nan ∧
      bb_band_isFin p s = List.replicate s.length false) ∧
    (s.length < n →
      kdj_k n m1 s = List.replicate s.length FV.nan ∧
      kdj_d n m1 m2 s = List.replicate s.length FV.nan ∧
      kdj_j n m1 m2 s = List.replicate s.length FV.nan) ∧
    (calculate_ema p ([] : List Candle) = [] ∧
      calculate_macd fast slow signal ([] : List Candle) = ([], [], []) ∧
      calculate_obv ([] : List Candle) = none) := by
  refine ⟨fun h => ⟨calculate_ma_short p s h, calculate_rsi_short p s h,
    calculate_atr_short p s h, dmi_plus_di_short p s h, dmi_minus_di_short p s h,
    dmi_adx_short p s h, calculate_bb_middle_short p s h,
    calculate_bb_var_short p s h, bb_band_isFin_short p s h⟩,
    fun h => ⟨kdj_k_short n m1 s h, kdj_d_short n m1 m2 s h,
      kdj_j_short n m1 m2 s h⟩, rfl, rfl, rfl⟩

/-- Counterexample to C2 as stated: on the empty series OBV does not
return an entirely-missing Derived Series of the same (zero) length
without raising — the seeding line raises IndexError, modelled by
`none`. -/
theorem obv_empty_cex : calculate_obv ([] : List Candle) = none := rfl

/-- Witness for C2 (amended): RSI(14) and MA(14) on a length-3 series are
entirely missing with the input length; KDJ(9) likewise. -/
theorem indicator_short_series_witness :
    calculate_rsi 14 rsiFlatS = List.replicate 3 FV.nan ∧
      calculate_ma 14 rsiFlatS = List.replicate 3 FV.nan ∧
      kdj_k 9 3 rsiFlatS = List.replicate 3 FV.nan := by
  have h := indicator_short_series rsiFlatS 14 12 26 9 9 3 3
  exact ⟨(h.1 (by decide)).2.1, (h.1 (by decide)).1, (h.2.1 (by decide)).1⟩

theorem allFin_of_allfin (w : List FV) (h : ∀ x ∈ w, ∃ q, x = FV.fin q) :
    ∃ qs, allFin w = some qs := by
  induction w with
  | nil => exact ⟨[], rfl⟩
  | cons x xs ih =>
      obtain ⟨q, rfl⟩ := h x (List.mem_cons_self x xs)
      obtain ⟨qs, hqs⟩ := ih (fun y hy => h y (List.mem_cons_of_mem _ hy))
      refine ⟨q :: qs, ?_⟩
      show (allFin xs).map (fun l => q :: l) = some (q :: qs)
      rw [hqs, Option.map_some']

theorem mem_window_closes (p i : ℕ) (s : List Candle) (x : FV)
    (hx : x ∈ window p i (closesF s)) : ∃ q, x = FV.fin q :=
  mem_closesF s x (List.mem_of_mem_take (List.mem_of_mem_drop hx))

theorem rollingVar_one (l : List FV) :
    rollingApply (windowVar 1) 1 l = List.replicate l.length FV.nan := by
  apply List.ext_getElem?
  intro i
  by_cases hi : i < l.length
  · rw [getElem?_rollingApply _ _ _ _ hi, if_neg (by omega),
      List.getElem?_eq_getElem (by simpa using hi), List.getElem_replicate]
    congr 1
    unfold windowVar
    split
    · rfl
    · rw [if_pos (by omega)]
  · rw [List.getElem?_eq_none_iff.2 (by rw [length_rollingApply]; omega),
      List.getElem?_eq_none_iff.2 (by simp; omega)]

/-- C7 (amended): for every series shorter than p, MA(p) and the
Bollinger(p) middle band and band-definedness are entirely missing; for a
series of length ≥ p the first defined position of MA(p) is exactly p-1
for every p ≥ 1, and the first defined position of the upper/lower bands
is exactly p-1 for every p ≥ 2 — but for p = 1 the bands are never
defined at any position, because the rolling sample standard deviation
(ddof = 1) of a single observation is missing. -/
theorem ma_bb_window_edges (s : List Candle) (p : ℕ) :
    (s.length < p →
      calculate_ma p s = List.replicate s.length FV.nan ∧
      calculate_bb_middle p s = List.replicate s.length FV.nan ∧
      bb_band_isFin p s = List.replicate s.length false) ∧
    (1 ≤ p → p ≤ s.length →
      (∀ i, i + 1 < p → (calculate_ma p s)[i]? = some FV.nan) ∧
      (∃ q, (calculate_ma p s)[p - 1]? = some (FV.fin q))) ∧
    (2 ≤ p → p ≤ s.length →
      (∀ i, i + 1 < p → (bb_band_isFin p s)[i]? = some false) ∧
      (bb_band_isFin p s)[p - 1]? = some true) ∧
    (p = 1 → bb_band_isFin p s = List.replicate s.length false) := by
  refine ⟨fun h => ⟨calculate_ma_short p s h, calculate_bb_middle_short p s h,
    bb_band_isFin_short p s h⟩, fun hp hps => ?_, fun hp hps => ?_, fun hp => ?_⟩
  · constructor
    · intro i hi
      exact rollingMean_nan_lowidx p _ i (by rw [length_closesF]; omega) hi
    · have hlt : p - 1 < (closesF s).length := by rw [length_closesF]; omega
      obtain ⟨q, hq⟩ := windowMean_fin p (window p (p - 1) (closesF s)) hp
        (mem_window_closes p (p - 1) s)
      refine ⟨q, ?_⟩
      rw [calculate_ma, rollingMean, getElem?_rollingApply _ _ _ _ hlt,
        if_neg (by omega), hq]
  · constructor
    · intro i hi
      have hil : i < (closesF s).length := by rw [length_closesF]; omega
      have hm : (calculate_bb_middle p s)[i]? = some FV.nan :=
        rollingMean_nan_lowidx p _ i hil hi
      have hv : (calculate_bb_var p s)[i]? = some FV.nan := by
        rw [calculate_bb_var, rollingVar, getElem?_rollingApply _ _ _ _ hil,
          if_pos hi]
      rw [bb_band_isFin, zip_getElem? _ _ _ _ _ _ hm hv]
      simp
    · have hlt : p - 1 < (closesF s).length := by rw [length_closesF]; omega
      obtain ⟨m, hm⟩ := windowMean_fin p (window p (p - 1) (closesF s))
        (by omega) (mem_window_closes p (p - 1) s)
      have hmid : (calculate_bb_middle p s)[p - 1]? = some (FV.fin m) := by
        rw [calculate_bb_middle, rollingMean, getElem?_rollingApply _ _ _ _ hlt,
          if_neg (by omega), hm]
      obtain ⟨qs, hqs⟩ := allFin_of_allfin (window p (p - 1) (closesF s))
        (mem_window_closes p (p - 1) s)
      have hvar : ∃ v, (calculate_bb_var p s)[p - 1]? = some (FV.fin v) := by
        rw [calculate_bb_var, rollingVar, getElem?_rollingApply _ _ _ _ hlt,
          if_neg (by omega)]
        unfold windowVar
        rw [if_neg (by
          rw [not_any_isNan_of_allfin _ (mem_window_closes p (p - 1) s)]
          exact Bool.false_ne_true)]
        rw [if_neg (by omega), hqs]
        exact ⟨_, rfl⟩
      obtain ⟨v, hv⟩ := hvar
      rw [bb_band_isFin, zip_getElem? _ _ _ _ _ _ hmid hv]
      simp
  · subst hp
    unfold bb_band_isFin calculate_bb_var
    rw [rollingVar, rollingVar_one (closesF s), length_closesF]
    exact zipWith_right_const _ FV.nan false (fun x => by simp) s.length _
      (by rw [calculate_bb_middle, length_rollingMean, length_closesF])

/-- A single-candle series for the p = 1 Bollinger counterexample. -/
def bbCexS : List Candle :=
  [{ datetime := 0, open_ := 0, high := 5, low := 5, close := 5, vol := 1 }]

/-- Counterexample to C7 as stated: a length-1 series with p = 1 has
length ≥ p, so the claim puts the first defined band position at index
p-1 = 0, yet the upper/lower Bollinger bands are undefined there (the
ddof-1 rolling std of one observation is missing). -/
theorem bb_p1_cex :
    (1 : ℕ) ≤ bbCexS.length ∧ bb_band_isFin 1 bbCexS = [false] := by decide

/-- Witness for C7 (amended): with p = 2 on a length-3 series, MA is
missing at index 0 and the bands are defined at index p-1 = 1. -/
theorem ma_bb_window_edges_witness :
    (calculate_ma 2 rsiFlatS)[0]? = some FV.nan ∧
      (bb_band_isFin 2 rsiFlatS)[1]? = some true := by
  have h := ma_bb_window_edges rsiFlatS 2
  exact ⟨(h.2.1 (by decide) (by decide)).1 0 (by decide),
    (h.2.2.1 (by decide) (by decide)).2⟩

/-- C1 (amended): the masked assignments are applied sequentially, so the
tie-break is asymmetric.  At every position where the (nan-free) upward
move equals the downward move with common value d: +DM is always zeroed;
-DM is zeroed only when d ≤ 0 (where the negativity clamp already zeroed
both) and otherwise KEEPS the tied positive move d, because its guard
`minus_dm <= plus_dm` compares against the already-zeroed +DM.  Only +DM
obeys "a directional move counts only if it strictly exceeds the opposite
move"; -DM survives ties. -/
theorem dmi_tie_break (s : List Candle) (i : ℕ) (d : ℚ)
    (hu : (dmi_plus_dm_raw s)[i]? = some (FV.fin d))
    (hd : (dmi_minus_dm_raw s)[i]? = some (FV.fin d)) :
    (dmi_plus_dm s)[i]? = some (FV.fin 0) ∧
      (dmi_minus_dm s)[i]? = some (if d ≤ 0 then FV.fin 0 else FV.fin d) := by
  have hp1 : ((dmi_plus_dm_raw s).map
      (fun x => if FV.lt x (FV.fin 0) then FV.fin 0 else x))[i]?
      = some (if d < 0 then FV.fin 0 else FV.fin d) := by
    rw [List.getElem?_map, hu, Option.map_some']
    by_cases h0 : d < 0 <;> simp [FV.lt, h0]
  have hm1 : ((dmi_minus_dm_raw s).map
      (fun x => if FV.lt x (FV.fin 0) then FV.fin 0 else x))[i]?
      = some (if d < 0 then FV.fin 0 else FV.fin d) := by
    rw [List.getElem?_map, hd, Option.map_some']
    by_cases h0 : d < 0 <;> simp [FV.lt, h0]
  have hp2 : (dmi_plus_dm s)[i]? = some (FV.fin 0) := by
    rw [dmi_plus_dm, zip_getElem? _ _ _ _ _ _ hp1 hm1]
    by_cases h0 : d < 0 <;> simp [FV.le, h0]
  refine ⟨hp2, ?_⟩
  rw [dmi_minus_dm, zip_getElem? _ _ _ _ _ _ hm1 hp2]
  by_cases h0 : d < 0
  · rw [if_pos h0, if_pos (le_of_lt h0)]
    simp [FV.le]
  · rw [if_neg h0]
    by_cases h1 : d ≤ 0
    · rw [if_pos h1]
      simp [FV.le, h1]
    · rw [if_neg h1]
      simp [FV.le, h1]

/-- A two-candle series whose upward move (high 10 → 11) equals its
downward move (low 10 → 9): both raw directional moves at position 1 are
+1. -/
def dmiTieS : List Candle :=
  [{ datetime := 0, open_ := 10, high := 10, low := 10, close := 10, vol := 1 },
   { datetime := 1, open_ := 10, high := 11, low := 9, close := 10, vol := 1 }]

/-- Counterexample to C1 as stated: at the equal-positive-move tie the
code zeroes +DM but leaves -DM at the tied move 1 — the tie-break does
NOT zero out both, and -DM contributes without strictly exceeding the
opposite move. -/
theorem dmi_tie_break_cex :
    (dmi_plus_dm_raw dmiTieS)[1]? = some (FV.fin 1) ∧
      (dmi_minus_dm_raw dmiTieS)[1]? = some (FV.fin 1) ∧
      (dmi_plus_dm dmiTieS)[1]? = some (FV.fin 0) ∧
      (dmi_minus_dm dmiTieS)[1]? = some (FV.fin 1) := by decide

/-- Witness for C1 (amended) at the concrete tie of positive magnitude 1. -/
theorem dmi_tie_break_witness :
    (dmi_plus_dm dmiTieS)[1]? = some (FV.fin 0) ∧
      (dmi_minus_dm dmiTieS)[1]? =
        some (if (1 : ℚ) ≤ 0 then FV.fin 0 else FV.fin 1) :=
  dmi_tie_break dmiTieS 1 1 (by decide) (by decide)

/-- C3 (amended): the normalizer sorts by timestamp and re-indexes
positions 0..n-1, producing a permutation of the input with
NON-DECREASING timestamps; timestamps are strictly ascending only when
the input timestamps are pairwise distinct.  A collection with duplicate
timestamps is NOT rejected: `sort_values` keeps all rows, so the
normalizer silently returns a series with equal adjacent timestamps
rather than signalling a normalization error. -/
theorem process_dataframe_sorted (l : List Candle) :
    List.Sorted tsLE (process_dataframe l) ∧
      (process_dataframe l).Perm l ∧
      ((l.map Candle.datetime).Nodup →
        List.Sorted (fun a b : Candle => a.datetime < b.datetime)
          (process_dataframe l)) := by
  unfold process_dataframe
  by_cases hl : l.isEmpty
  · rw [if_pos hl]
    have : l = [] := List.isEmpty_iff.1 hl
    subst this
    exact ⟨List.sorted_nil, List.Perm.refl _, fun _ => List.sorted_nil⟩
  · rw [if_neg hl]
    have hperm : (List.insertionSort tsLE l).Perm l := List.perm_insertionSort _ _
    have hsorted : List.Sorted tsLE (List.insertionSort tsLE l) :=
      List.sorted_insertionSort _ _
    refine ⟨hsorted, hperm, fun hnd => ?_⟩
    have hnd2 : ((List.insertionSort tsLE l).map Candle.datetime).Nodup :=
      (hperm.map Candle.datetime).nodup_iff.2 hnd
    have hpw : (List.insertionSort tsLE l).Pairwise
        (fun a b : Candle => a.datetime ≠ b.datetime) :=
      List.pairwise_map.mp hnd2
    exact (hsorted.and hpw).imp (fun h => lt_of_le_of_ne h.1 h.2)

/-- Two candles sharing timestamp 5 but holding different closes. -/
def dupA : Candle :=
  { datetime := 5, open_ := 0, high := 0, low := 0, close := 1, vol := 0 }

/-- The second candle with the duplicate timestamp. -/
def dupB : Candle :=
  { datetime := 5, open_ := 0, high := 0, low := 0, close := 2, vol := 0 }

/-- Counterexample to C3 as stated: a collection with two distinct
records sharing one timestamp is normalized to a length-2 series keeping
both records — not a normalization error — and that series is not
strictly ascending. -/
theorem process_dataframe_dup_cex :
    process_dataframe [dupA, dupB] = [dupA, dupB] ∧
      dupA.datetime = dupB.datetime ∧ dupA ≠ dupB := by decide

/-- A two-candle collection arriving in reverse timestamp order. -/
def c3WitL : List Candle :=
  [{ datetime := 7, open_ := 0, high := 0, low := 0, close := 1, vol := 0 },
   { datetime := 3, open_ := 0, high := 0, low := 0, close := 2, vol := 0 }]

/-- Witness for C3 (amended): on a concrete duplicate-free collection the
normalizer output is sorted, and strictly so. -/
theorem process_dataframe_witness :
    List.Sorted tsLE (process_dataframe c3WitL) ∧
      List.Sorted (fun a b : Candle => a.datetime < b.datetime)
        (process_dataframe c3WitL) := by
  have h := process_dataframe_sorted c3WitL
  exact ⟨h.1, h.2.2 (by decide)⟩

theorem obvFrom_length : ∀ (rest : List Candle) (prev pc : ℚ),
    (obvFrom prev pc rest).length = rest.length
  | [], _, _ => rfl
  | c :: rest, prev, pc => by
      rw [obvFrom]
      simp only [List.length_cons, obvFrom_length rest]

theorem obv_adj : ∀ (rest : List Candle) (prev : ℚ) (c : Candle) (i : ℕ)
    (ci cp : Candle) (a b : ℚ),
    (c :: rest)[i + 1]? = some ci → (c :: rest)[i]? = some cp →
    (prev :: obvFrom prev c.close rest)[i + 1]? = some a →
    (prev :: obvFrom prev c.close rest)[i]? = some b →
    a - b = (if cp.close < ci.close then ci.vol
             else if ci.close < cp.close then -ci.vol else 0) := by
  intro rest
  induction rest with
  | nil =>
      intro prev c i ci cp a b h1 _ _ _
      rw [List.getElem?_cons_succ] at h1
      simp at h1
  | cons c2 rest ih =>
      intro prev c i ci cp a b h1 h2 h3 h4
      cases i with
      | zero =>
          rw [List.getElem?_cons_succ, List.getElem?_cons_zero] at h1
          rw [List.getElem?_cons_zero] at h2
          rw [List.getElem?_cons_succ,
            show obvFrom prev c.close (c2 :: rest) =
              (if c.close < c2.close then qadd prev c2.vol
               else if c2.close < c.close then qsub prev c2.vol else prev) ::
                obvFrom (if c.close < c2.close then qadd prev c2.vol
                  else if c2.close < c.close then qsub prev c2.vol else prev)
                  c2.close rest from rfl,
            List.getElem?_cons_zero] at h3
          rw [List.getElem?_cons_zero] at h4
          injection h1 with h1
          injection h2 with h2
          injection h3 with h3
          injection h4 with h4
          rw [← h1, ← h2, ← h3, ← h4]
          by_cases hup : c.close < c2.close
          · rw [if_pos hup, if_pos hup, qadd_eq]
            ring
          · rw [if_neg hup, if_neg hup]
            by_cases hdown : c2.close < c.close
            · rw [if_pos hdown, if_pos hdown, qsub_eq]
              ring
            · rw [if_neg hdown, if_neg hdown]
              ring
      | succ j =>
          rw [List.getElem?_cons_succ] at h1 h2 h3 h4
          rw [show obvFrom prev c.close (c2 :: rest) =
              (if c.close < c2.close then qadd prev c2.vol
               else if c2.close < c.close then qsub prev c2.vol else prev) ::
                obvFrom (if c.close < c2.close then qadd prev c2.vol
                  else if c2.close < c.close then qsub prev c2.vol else prev)
                  c2.close rest from rfl] at h3 h4
          exact ih _ c2 j ci cp a b h1 h2 h3 h4

/-- C8: OBV is seeded at position 0 with the first candle's volume (not
zero), and every later step moves by exactly +volume, -volume or 0
according to the sign of the close-to-close change.  The series exists
(is `some`) for every non-empty input. -/
theorem obv_spec (c : Candle) (rest : List Candle) :
    ∃ l : List ℚ, calculate_obv (c :: rest) = some l ∧
      l.length = (c :: rest).length ∧
      l[0]? = some c.vol ∧
      ∀ (i : ℕ) (ci cp : Candle) (a b : ℚ),
        (c :: rest)[i + 1]? = some ci → (c :: rest)[i]? = some cp →
        l[i + 1]? = some a → l[i]? = some b →
        a - b = (if cp.close < ci.close then ci.vol
                 else if ci.close < cp.close then -ci.vol else 0) := by
  refine ⟨c.vol :: obvFrom c.vol c.close rest, rfl, ?_,
    List.getElem?_cons_zero, ?_⟩
  · simp only [List.length_cons, obvFrom_length]
  · exact obv_adj rest c.vol c

/-- First candle of the OBV witness series: close 1, volume 5. -/
def obvC1 : Candle :=
  { datetime := 0, open_ := 0, high := 0, low := 0, close := 1, vol := 5 }

/-- Second candle of the OBV witness series: close 2, volume 7. -/
def obvC2 : Candle :=
  { datetime := 1, open_ := 0, high := 0, low := 0, close := 2, vol := 7 }

/-- Witness for C8: over [close 1 vol 5, close 2 vol 7] the OBV series is
[5, 12] (seeded with 5, not 0) and the theorem reconstructs the step
12 - 5 = +7 from the rising close. -/
theorem obv_spec_witness :
    calculate_obv [obvC1, obvC2] = some [(5 : ℚ), 12] ∧
      ((12 : ℚ) - 5 =
        if (1 : ℚ) < 2 then (7 : ℚ) else if (2 : ℚ) < 1 then -7 else 0) := by
  constructor
  · decide
  · obtain ⟨l, h1, _, _, h4⟩ := obv_spec obvC1 [obvC2]
    have he : calculate_obv [obvC1, obvC2] = some [(5 : ℚ), 12] := by decide
    rw [h1] at he
    injection he with he
    subst he
    exact h4 0 obvC2 obvC1 12 5 (by decide) (by decide) (by decide) (by decide)

/-- The entry an instrument contributes to the Batch Result: `none` when
its retrieval yields no data (NoData or an empty frame) — a recorded
skip — else its report keyed by the instrument. -/
def batchEntry (fetch : String → Option (List Candle)) (inst_id : String) :
    Option (String × Report) :=
  if ((fetch inst_id).getD []).isEmpty then none
  else
    match analyze_single_asset inst_id ((fetch inst_id).getD []) with
    | some r => some (inst_id, r)
    | none => none

theorem batchEntry_some (fetch : String → Option (List Candle)) (a : String)
    (e : String × Report) (he : batchEntry fetch a = some e) :
    e.1 = a ∧ analyze_single_asset a ((fetch a).getD []) = some e.2 := by
  unfold batchEntry at he
  by_cases hempty : ((fetch a).getD []).isEmpty
  · rw [if_pos hempty] at he
    exact Option.noConfusion he
  · rw [if_neg hempty] at he
    cases hr : analyze_single_asset a ((fetch a).getD []) with
    | none =>
        rw [hr] at he
        exact Option.noConfusion he
    | some r =>
        rw [hr] at he
        injection he with he
        subst he
        exact ⟨rfl, rfl⟩

theorem dictInsert_not_mem (k : String) (v : Report)
    (l : List (String × Report)) (h : ∀ x ∈ l, x.1 ≠ k) :
    dictInsert k v l = l ++ [(k, v)] := by
  induction l with
  | nil => rfl
  | cons p rest ih =>
      obtain ⟨k2, v2⟩ := p
      rw [dictInsert, if_neg (h (k2, v2) (List.mem_cons_self _ _)),
        ih (fun x hx => h x (List.mem_cons_of_mem _ hx)), List.cons_append]

theorem batch_fold (fetch : String → Option (List Candle)) :
    ∀ (ids : List String) (acc : List (String × Report)),
      ids.Nodup → (∀ x ∈ acc, x.1 ∉ ids) →
      ids.foldl (batchStep fetch) acc = acc ++ ids.filterMap (batchEntry fetch) := by
  intro ids
  induction ids with
  | nil => intro acc _ _; simp
  | cons id rest ih =>
      intro acc hnd hacc
      rw [List.foldl_cons]
      have hstep : batchStep fetch acc id =
          (match batchEntry fetch id with
           | some e => acc ++ [e]
           | none => acc) := by
        unfold batchStep batchEntry
        by_cases hempty : ((fetch id).getD []).isEmpty
        · rw [if_pos hempty, if_pos hempty]
        · rw [if_neg hempty, if_neg hempty]
          cases hr : analyze_single_asset id ((fetch id).getD []) with
          | none => rfl
          | some r =>
              exact dictInsert_not_mem id r acc
                (fun x hx => by
                  have := hacc x hx
                  simp only [List.mem_cons] at this
                  exact fun he => this (Or.inl he))
      cases he : batchEntry fetch id with
      | none =>
          rw [hstep, he]
          rw [ih acc (List.nodup_cons.1 hnd).2
            (fun x hx => fun hmem => hacc x hx (List.mem_cons_of_mem _ hmem))]
          simp only [List.filterMap_cons, he]
      | some e =>
          have heid : e.1 = id := (batchEntry_some fetch id e he).1
          rw [hstep, he]
          rw [ih (acc ++ [e]) (List.nodup_cons.1 hnd).2 ?_]
          · simp only [List.filterMap_cons, he, List.append_assoc,
              List.singleton_append]
          · intro x hx
            rcases List.mem_append.1 hx with h1 | h2
            · exact fun hmem => hacc x h1 (List.mem_cons_of_mem _ hmem)
            · have : x = e := by simpa using h2
              subst this
              rw [heid]
              exact (List.nodup_cons.1 hnd).1

/-- C5: an instrument whose retrieval yields no data (or an empty frame)
is skipped while the remaining instruments are still processed, and the
Batch Result maps exactly the successfully analyzed instruments to their
reports in input-list order; the fold is total, so one instrument's
failure never aborts the batch.  (`Nodup` pins down "the order of the
input list": a Python dict keyed by instrument holds one entry per
distinct instrument.) -/
theorem batch_partial_failure (fetch : String → Option (List Candle))
    (inst_ids : List String) (hnd : inst_ids.Nodup) :
    analyze_all_assets fetch inst_ids
        = inst_ids.filterMap (batchEntry fetch) ∧
      ∀ id r, (id, r) ∈ analyze_all_assets fetch inst_ids →
        id ∈ inst_ids ∧
          analyze_single_asset id ((fetch id).getD []) = some r := by
  have hmain : analyze_all_assets fetch inst_ids
      = inst_ids.filterMap (batchEntry fetch) := by
    unfold analyze_all_assets
    rw [batch_fold fetch inst_ids [] hnd (by simp), List.nil_append]
  refine ⟨hmain, fun id r hmem => ?_⟩
  rw [hmain] at hmem
  obtain ⟨a, ha, hae⟩ := List.mem_filterMap.1 hmem
  obtain ⟨h1, h2⟩ := batchEntry_some fetch a (id, r) hae
  simp only at h1 h2
  subst h1
  exact ⟨ha, h2⟩

/-- A concrete data-retrieval collaborator: instrument A has one candle,
instrument B signals NoData. -/
def fetchWit : String → Option (List Candle) :=
  fun inst_id => if inst_id = "A" then some [obvC1] else none

/-- Witness for C5 (end-to-end scenario C): batch over [A, B] where B's
retrieval returns NoData analyzes only A — B is skipped, the batch is
not aborted, and the result keys are exactly ["A"]. -/
theorem batch_partial_failure_witness :
    analyze_all_assets fetchWit ["A", "B"]
        = ["A", "B"].filterMap (batchEntry fetchWit) ∧
      (analyze_all_assets fetchWit ["A", "B"]).map Prod.fst = ["A"] :=
  ⟨(batch_partial_failure fetchWit ["A", "B"] (by decide)).1, by decide⟩

theorem length_dmi_plus_dm (s : List Candle) :
    (dmi_plus_dm s).length = s.length := length_dmi_dm_fst s

theorem length_dmi_minus_dm (s : List Candle) :
    (dmi_minus_dm s).length = s.length := length_dmi_dm_snd s

theorem dmi_plus_dm_raw_zero (c : Candle) (rest : List Candle) :
    (dmi_plus_dm_raw (c :: rest))[0]? = some FV.nan := by
  rw [dmi_plus_dm_raw]
  show (fdiff (FV.fin c.high :: highsF rest))[0]? = some FV.nan
  rw [fdiff, List.getElem?_cons_zero]

theorem dmi_minus_dm_raw_zero (c : Candle) (rest : List Candle) :
    (dmi_minus_dm_raw (c :: rest))[0]? = some FV.nan := by
  rw [dmi_minus_dm_raw, List.getElem?_map]
  rw [show (fdiff (lowsF (c :: rest)))[0]? = some FV.nan from by
    show (fdiff (FV.fin c.low :: lowsF rest))[0]? = some FV.nan
    rw [fdiff, List.getElem?_cons_zero]]
  rfl

theorem dmi_plus_dm_zero (c : Candle) (rest : List Candle) :
    (dmi_plus_dm (c :: rest))[0]? = some FV.nan := by
  rw [dmi_plus_dm]
  have hp1 : ((dmi_plus_dm_raw (c :: rest)).map
      (fun x => if FV.lt x (FV.fin 0) then FV.fin 0 else x))[0]? = some FV.nan := by
    rw [List.getElem?_map, dmi_plus_dm_raw_zero]
    rfl
  have hm1 : ((dmi_minus_dm_raw (c :: rest)).map
      (fun x => if FV.lt x (FV.fin 0) then FV.fin 0 else x))[0]? = some FV.nan := by
    rw [List.getElem?_map, dmi_minus_dm_raw_zero]
    rfl
  rw [zip_getElem? _ _ _ _ _ _ hp1 hm1]
  rfl

theorem dmi_minus_dm_zero (c : Candle) (rest : List Candle) :
    (dmi_minus_dm (c :: rest))[0]? = some FV.nan := by
  rw [dmi_minus_dm]
  have hm1 : ((dmi_minus_dm_raw (c :: rest)).map
      (fun x => if FV.lt x (FV.fin 0) then FV.fin 0 else x))[0]? = some FV.nan := by
    rw [List.getElem?_map, dmi_minus_dm_raw_zero]
    rfl
  rw [zip_getElem? _ _ _ _ _ _ hm1 (dmi_plus_dm_zero c rest)]
  rfl

theorem dmi_avg_pdm_nan (p : ℕ) (c : Candle) (rest : List Candle) (j : ℕ)
    (hj : j < p) (hjl : j < (c :: rest).length) :
    (rollingMean p (dmi_plus_dm (c :: rest)))[j]? = some FV.nan :=
  rollingMean_nan_of_nanmem p _ j 0
    (by rw [length_dmi_plus_dm]; exact hjl) (by omega) (by omega)
    (dmi_plus_dm_zero c rest)

theorem dmi_avg_mdm_nan (p : ℕ) (c : Candle) (rest : List Candle) (j : ℕ)
    (hj : j < p) (hjl : j < (c :: rest).length) :
    (rollingMean p (dmi_minus_dm (c :: rest)))[j]? = some FV.nan :=
  rollingMean_nan_of_nanmem p _ j 0
    (by rw [length_dmi_minus_dm]; exact hjl) (by omega) (by omega)
    (dmi_minus_dm_zero c rest)

theorem dmi_plus_di_nan (p : ℕ) (c : Candle) (rest : List Candle) (j : ℕ)
    (hj : j < p) (hjl : j < (c :: rest).length) :
    (dmi_plus_di p (c :: rest))[j]? = some FV.nan := by
  unfold dmi_plus_di
  have h1 : ((rollingMean p (dmi_dm (c :: rest)).1).map
      (fun x => FV.mul (FV.fin 100) x))[j]? = some FV.nan := by
    rw [List.getElem?_map]
    rw [show (dmi_dm (c :: rest)).1 = dmi_plus_dm (c :: rest) from rfl,
      dmi_avg_pdm_nan p c rest j hj hjl]
    rfl
  obtain ⟨y, hy⟩ := getElem?_some_of_lt (rollingMean p (true_range (c :: rest))) j
    (by rw [length_rollingMean, length_true_range]; exact hjl)
  rw [zip_getElem? _ _ _ _ _ _ h1 hy]
  simp

theorem dmi_minus_di_nan (p : ℕ) (c : Candle) (rest : List Candle) (j : ℕ)
    (hj : j < p) (hjl : j < (c :: rest).length) :
    (dmi_minus_di p (c :: rest))[j]? = some FV.nan := by
  unfold dmi_minus_di
  have h1 : ((rollingMean p (dmi_dm (c :: rest)).2).map
      (fun x => FV.mul (FV.fin 100) x))[j]? = some FV.nan := by
    rw [List.getElem?_map]
    rw [show (dmi_dm (c :: rest)).2 = dmi_minus_dm (c :: rest) from rfl,
      dmi_avg_mdm_nan p c rest j hj hjl]
    rfl
  obtain ⟨y, hy⟩ := getElem?_some_of_lt (rollingMean p (true_range (c :: rest))) j
    (by rw [length_rollingMean, length_true_range]; exact hjl)
  rw [zip_getElem? _ _ _ _ _ _ h1 hy]
  simp

theorem dmi_dx_nan (p : ℕ) (c : Candle) (rest : List Candle) (j : ℕ)
    (hj : j < p) (hjl : j < (c :: rest).length) :
    (List.zipWith FV.div
      ((List.zipWith FV.sub (dmi_plus_di p (c :: rest)) (dmi_minus_di p (c :: rest))).map
        (fun x => FV.mul (FV.fin 100) (FV.abs x)))
      (List.zipWith FV.add (dmi_plus_di p (c :: rest)) (dmi_minus_di p (c :: rest))))[j]?
      = some FV.nan := by
  have hpdi := dmi_plus_di_nan p c rest j hj hjl
  have hmdi := dmi_minus_di_nan p c rest j hj hjl
  have hnum : ((List.zipWith FV.sub (dmi_plus_di p (c :: rest))
      (dmi_minus_di p (c :: rest))).map
      (fun x => FV.mul (FV.fin 100) (FV.abs x)))[j]? = some FV.nan := by
    rw [List.getElem?_map, zip_getElem? _ _ _ _ _ _ hpdi hmdi]
    simp
  have hden : (List.zipWith FV.add (dmi_plus_di p (c :: rest))
      (dmi_minus_di p (c :: rest)))[j]? = some FV.nan := by
    rw [zip_getElem? _ _ _ _ _ _ hpdi hmdi]
    simp
  rw [zip_getElem? _ _ _ _ _ _ hnum hden]
  simp

theorem length_dmi_adx (p : ℕ) (s : List Candle) :
    (dmi_adx p s).length = s.length := by
  unfold dmi_adx
  rw [length_rollingMean, length_dmi_dx]

theorem dmi_adx_nan (p : ℕ) (c : Candle) (rest : List Candle) (i : ℕ)
    (hp : 1 ≤ p) (hi : i ≤ 2 * p - 2) (hil : i < (c :: rest).length) :
    (dmi_adx p (c :: rest))[i]? = some FV.nan := by
  unfold dmi_adx
  exact rollingMean_nan_of_nanmem p _ i (min i (p - 1))
    (by rw [length_dmi_dx]; exact hil) (by omega) (by omega)
    (dmi_dx_nan p c rest (min i (p - 1)) (by omega) (by omega))

theorem getLast?_replicate_succ {α : Type} (n : ℕ) (x : α) :
    (List.replicate (n + 1) x).getLast? = some x := by
  rw [List.getLast?_eq_getElem?, List.length_replicate]
  rw [List.getElem?_eq_getElem (by simp)]
  rw [List.getElem_replicate]

set_option maxHeartbeats 1600000 in
/-- C6 (amended): for every non-empty normalized series the snapshot
reports, for each indicator it covers, the value at the LAST POSITION of
that indicator's Derived Series (`iloc[-1]`, with an explicit None guard
for MA5/MA20 on short series) — not the value at the last defined
position, which can differ when the series end is missing while earlier
positions are defined.  Whenever the series is shorter than the
indicator's minimum lookback (5 for MA5, 20 for MA20, 14 for RSI-14,
28 for ADX-14) the reported entry is the explicit missing marker (None
or NaN), never a fabricated number. -/
theorem snapshot_latest (asset : String) (c : Candle) (rest : List Candle) :
    ∃ r, analyze_single_asset asset (c :: rest) = some r ∧
      r.ma5 = (if 5 ≤ (c :: rest).length
        then (calculate_ma 5 (c :: rest)).getLast? else none) ∧
      r.ma20 = (if 20 ≤ (c :: rest).length
        then (calculate_ma 20 (c :: rest)).getLast? else none) ∧
      r.rsi = (calculate_rsi 14 (c :: rest)).getLast? ∧
      r.adx = (dmi_adx 14 (c :: rest)).getLast? ∧
      r.macd_dif = (macd_dif 12 26 (c :: rest)).getLast? ∧
      ((c :: rest).length < 5 → r.ma5 = none) ∧
      ((c :: rest).length < 20 → r.ma20 = none) ∧
      ((c :: rest).length < 14 → r.rsi = some FV.nan) ∧
      ((c :: rest).length < 28 → r.adx = some FV.nan) := by
  refine ⟨{ asset := asset
            ma5 := if 5 ≤ (c :: rest).length
              then (calculate_ma 5 (c :: rest)).getLast? else none
            ma20 := if 20 ≤ (c :: rest).length
              then (calculate_ma 20 (c :: rest)).getLast? else none
            adx := (dmi_adx 14 (c :: rest)).getLast?
            rsi := (calculate_rsi 14 (c :: rest)).getLast?
            macd_dif := (macd_dif 12 26 (c :: rest)).getLast?
            fib_levels := calculate_fibonacci_retracement
              ((rest.map Candle.high).foldl qmax c.high)
              ((rest.map Candle.low).foldl qmin c.low)
            current_price := ((c :: rest).getLast?.getD c).close
            price_change_pct := FV.mul (FV.div
              (FV.fin (qsub ((c :: rest).getLast?.getD c).close c.close))
              (FV.fin c.close)) (FV.fin 100)
            total_candles := (c :: rest).length
            date_start := c.datetime
            date_end := ((c :: rest).getLast?.getD c).datetime },
    rfl, rfl, rfl, rfl, rfl, rfl, ?_, ?_, ?_, ?_⟩
  · intro h
    show (if 5 ≤ (c :: rest).length
      then (calculate_ma 5 (c :: rest)).getLast? else none) = none
    rw [if_neg (by omega)]
  · intro h
    show (if 20 ≤ (c :: rest).length
      then (calculate_ma 20 (c :: rest)).getLast? else none) = none
    rw [if_neg (by omega)]
  · intro h
    show (calculate_rsi 14 (c :: rest)).getLast? = some FV.nan
    rw [calculate_rsi_short 14 (c :: rest) h]
    show (List.replicate (rest.length + 1) FV.nan).getLast? = some FV.nan
    exact getLast?_replicate_succ rest.length FV.nan
  · intro h
    show (dmi_adx 14 (c :: rest)).getLast? = some FV.nan
    rw [List.getLast?_eq_getElem?, length_dmi_adx]
    exact dmi_adx_nan 14 c rest ((c :: rest).length - 1) (by omega)
      (by simp only [List.length_cons] at h ⊢; omega)
      (by simp only [List.length_cons]; omega)

/-- Sixteen candles whose closes are 1 then fifteen 2s: RSI(14) is 100 at
positions 13 and 14 (the lone gain is still inside the window, average
loss 0) but missing at the last position 15 (the final window is flat,
RS = 0/0). -/
def s16 : List Candle :=
  [{ datetime := 0, open_ := 1, high := 1, low := 1, close := 1, vol := 1 },
   { datetime := 1, open_ := 2, high := 2, low := 2, close := 2, vol := 1 },
   { datetime := 2, open_ := 2, high := 2, low := 2, close := 2, vol := 1 },
   { datetime := 3, open_ := 2, high := 2, low := 2, close := 2, vol := 1 },
   { datetime := 4, open_ := 2, high := 2, low := 2, close := 2, vol := 1 },
   { datetime := 5, open_ := 2, high := 2, low := 2, close := 2, vol := 1 },
   { datetime := 6, open_ := 2, high := 2, low := 2, close := 2, vol := 1 },
   { datetime := 7, open_ := 2, high := 2, low := 2, close := 2, vol := 1 },
   { datetime := 8, open_ := 2, high := 2, low := 2, close := 2, vol := 1 },
   { datetime := 9, open_ := 2, high := 2, low := 2, close := 2, vol := 1 },
   { datetime := 10, open_ := 2, high := 2, low := 2, close := 2, vol := 1 },
   { datetime := 11, open_ := 2, high := 2, low := 2, close := 2, vol := 1 },
   { datetime := 12, open_ := 2, high := 2, low := 2, close := 2, vol := 1 },
   { datetime := 13, open_ := 2, high := 2, low := 2, close := 2, vol := 1 },
   { datetime := 14, open_ := 2, high := 2, low := 2, close := 2, vol := 1 },
   { datetime := 15, open_ := 2, high := 2, low := 2, close := 2, vol := 1 }]

set_option maxHeartbeats 4000000 in
set_option maxRecDepth 8000 in
/-- Counterexample to C6 as stated: on `s16` the RSI Derived Series has
its last defined position at index 14 with value 100, yet the snapshot's
RSI entry is the missing marker — the snapshot reports the last position
(index 15, missing), not the last defined position. -/
theorem snapshot_latest_cex :
    ((analyze_single_asset "A" s16).map Report.rsi) = some (some FV.nan) ∧
      (calculate_rsi 14 s16)[14]? = some (FV.fin 100) ∧
      (calculate_rsi 14 s16)[15]? = some FV.nan := by decide

/-- Witness for C6 (amended) on a length-3 series: the MA5 entry is the
None marker and the RSI entry is the NaN marker. -/
theorem snapshot_latest_witness :
    ((analyze_single_asset "A" rsiFlatS).map Report.ma5) = some none ∧
      ((analyze_single_asset "A" rsiFlatS).map Report.rsi) = some (some FV.nan) := by
  obtain ⟨r, hr, _, _, _, _, _, hma5, _, hrsi, _⟩ :=
    snapshot_latest "A"
      { datetime := 0, open_ := 0, high := 0, low := 0, close := 5, vol := 0 }
      [{ datetime := 1, open_ := 0, high := 0, low := 0, close := 5, vol := 0 },
       { datetime := 2, open_ := 0, high := 0, low := 0, close := 5, vol := 0 }]
  constructor
  · show ((analyze_single_asset "A"
      ({ datetime := 0, open_ := 0, high := 0, low := 0, close := 5, vol := 0 } ::
       [{ datetime := 1, open_ := 0, high := 0, low := 0, close := 5, vol := 0 },
        { datetime := 2, open_ := 0, high := 0, low := 0, close := 5, vol := 0 }])).map
          Report.ma5) = some none
    rw [hr, Option.map_some', hma5 (by decide)]
  · show ((analyze_single_asset "A"
      ({ datetime := 0, open_ := 0, high := 0, low := 0, close := 5, vol := 0 } ::
       [{ datetime := 1, open_ := 0, high := 0, low := 0, close := 5, vol := 0 },
        { datetime := 2, open_ := 0, high := 0, low := 0, close := 5, vol := 0 }])).map
          Report.rsi) = some (some FV.nan)
    rw [hr, Option.map_some', hrsi (by decide)]

/-- C10: on an empty underlying series the aggregator entry points
degrade gracefully instead of raising: `get_all_indicators` short-cuts to
the empty indicator table (its guard is what protects the OBV loop from
the IndexError of C2), and the single-asset analysis returns no report at
all (`None`) rather than a partially filled one. -/
theorem empty_series_aggregators :
    get_all_indicators [] = some IndicatorTable.emptyTable ∧
      ∀ asset : String, analyze_single_asset asset [] = none :=
  ⟨rfl, fun _ => rfl⟩
